import Mathlib

/-!
# Social-Blog: request, authorization and persistence contract

A shallow embedding of the Express handlers of the repository
(`app.js`, `middleware/is-auth.js`, `routes/*.js`, `controllers/*.js`,
`models/*.js`).

* The MongoDB collections are lists in natural (insertion) order.
* An `ObjectId` is a natural number; the hexadecimal text form of an id
  (`_id.toString()`, `req.userId`, `req.params.postId`) is identified with
  the id itself, the conversion being injective.
* A promise chain is run to completion, one request at a time; the store
  between two asynchronous steps of a request is exposed where a claim
  depends on it (`signupOverlapped`, `afterPostSave`).
* The third-party functions the handlers call (validator.js, bcryptjs,
  jsonwebtoken) are the fields of `Lib`, passed explicitly.
* Mongoose timestamps are not part of the model.
-/

namespace SocialBlog

/-! ## JavaScript text helpers -/

/-- White space as matched by the JavaScript regular expression class `\s`. -/
def jsIsSpace (c : Char) : Bool :=
  c.toNat = 9 || c.toNat = 10 || c.toNat = 11 || c.toNat = 12 || c.toNat = 13 ||
  c.toNat = 32 || c.toNat = 160 || c.toNat = 5760 ||
  (8192 ≤ c.toNat && c.toNat ≤ 8202) || c.toNat = 8232 || c.toNat = 8233 ||
  c.toNat = 8239 || c.toNat = 8287 || c.toNat = 12288 || c.toNat = 65279

/-- Characters left after removing leading and trailing white space. -/
def trimChars (cs : List Char) : List Char :=
  ((cs.dropWhile jsIsSpace).reverse.dropWhile jsIsSpace).reverse

/-- The sanitizer `trim()` of express-validator (validator.js `trim` without
a character set). -/
def jsTrim (s : String) : String := String.mk (trimChars s.toList)

/-- Replace the first backslash of a character list by a forward slash. -/
def replaceBackslashChars : List Char → List Char
  | [] => []
  | c :: cs => if c = '\\' then '/' :: cs else c :: replaceBackslashChars cs

/-- The call `s.replace("\\", "/")`: with a string pattern JavaScript replaces
the first occurrence only. -/
def replaceBackslash (s : String) : String := String.mk (replaceBackslashChars s.toList)

/-- Segments of a character list cut at every occurrence of `sep`
(`String.prototype.split` with a one-character separator). -/
def splitChars (sep : Char) : List Char → List (List Char)
  | [] => [[]]
  | c :: cs =>
    if c = sep then [] :: splitChars sep cs
    else
      match splitChars sep cs with
      | [] => [[c]]
      | seg :: rest => (c :: seg) :: rest

/-- The call `s.split(" ")`. -/
def jsSplitSpace (s : String) : List String := (splitChars ' ' s.toList).map String.mk

/-! ## Data model (`models/user.js`, `models/post.js`) -/

/-- MongoDB object identifier. -/
abbrev ObjectId := Nat

/-- A document of the `User` collection. -/
structure User where
  _id : ObjectId
  email : String
  password : String
  name : Option String
  status : Option String
  posts : List ObjectId
deriving DecidableEq, Repr

/-- A document of the `Post` collection. -/
structure Post where
  _id : ObjectId
  title : String
  imageUrl : String
  content : String
  creator : ObjectId
deriving DecidableEq, Repr

/-- The database: both collections in storage order, and the source of fresh
object identifiers. -/
structure Db where
  users : List User
  posts : List Post
  nextId : ObjectId
deriving DecidableEq, Repr

/-- The empty database. -/
def Db.empty : Db := ⟨[], [], 0⟩

/-- A post whose `creator` path has been populated. -/
structure PopulatedPost where
  post : Post
  creator : Option User
deriving DecidableEq, Repr

/-! ## Third-party library functions -/

/-- Payload placed in a token by `login`. -/
structure Payload where
  email : String
  userId : ObjectId
deriving DecidableEq, Repr

/-- The library functions called by the handlers.
`jwtSign payload secret expiresIn now` and `jwtVerify token secret now`;
`jwtVerify` returns `Except.error message` when jsonwebtoken throws. -/
structure Lib where
  isEmail : String → Bool
  normalizeEmail : String → String
  bcryptHash : String → Nat → String
  bcryptCompare : String → String → Bool
  jwtSign : Payload → String → Nat → Nat → String
  jwtVerify : Option String → String → Nat → Except String (Option Payload)

/-- The signing key written in `controllers/auth.js` and `middleware/is-auth.js`. -/
def secret : String := "thisisaverysecretkeysecret"

/-! ## Requests, responses, thrown values -/

/-- How `path.join` separates directories on the host. -/
inductive PathStyle where
  | posix
  | win32
deriving DecidableEq, Repr

/-- Directory separator of a path style. -/
def PathStyle.sep : PathStyle → String
  | .posix => "/"
  | .win32 => "\\"

/-- A file part of a multipart request as stored by `fileStorage` in `app.js`:
destination `images`, file name a fresh uuid. -/
structure File where
  mimetype : String
  filename : String
  style : PathStyle
deriving DecidableEq, Repr

/-- The property `file.path` set by multer: `path.join(destination, filename)`. -/
def File.path (f : File) : String := "images" ++ f.style.sep ++ f.filename

/-- The fields of `req.body` read by the handlers; `none` is `undefined`. -/
structure Body where
  email : Option String := none
  password : Option String := none
  name : Option String := none
  status : Option String := none
  title : Option String := none
  content : Option String := none
  image : Option String := none
deriving DecidableEq, Repr

/-- An incoming request after multer and the body reader of `app.js`.
`page` is the numeric value of the query parameter `page` when it is present
and non-empty; `userId` is written by `is-auth`; `validationErrors` is what
`validationResult(req)` returns. -/
structure Req where
  authorization : Option String := none
  body : Body := {}
  file : Option File := none
  postId : ObjectId := 0
  page : Option Nat := none
  now : Nat := 0
  userId : Option ObjectId := none
  validationErrors : List String := []
deriving DecidableEq, Repr

/-- A thrown JavaScript value as far as the error boundary reads it. -/
structure Thrown where
  statusCode : Option Nat
  message : Option String
  data : List String := []
deriving DecidableEq, Repr

/-- Response bodies. -/
inductive ResBody where
  | error (message : Option String) (data : List String)
  | posts (posts : List PopulatedPost) (totalItems : Nat)
  | created (post : Post) (creatorId : ObjectId) (creatorName : Option String)
  | post (post : Post)
  | message (text : String)
  | token (token : String) (userId : ObjectId)
  | userCreated (userId : ObjectId)
  | status (status : Option String)
deriving DecidableEq, Repr

/-- An HTTP response. -/
structure Res where
  status : Nat
  body : ResBody
deriving DecidableEq, Repr

/-- Calls a handler makes on its collaborators, in order. -/
inductive Effect where
  | countPosts
  | listPosts (skip limit : Nat)
  | findPost (id : ObjectId)
  | savePost (id : ObjectId)
  | removePost (id : ObjectId)
  | findUser (id : Option ObjectId)
  | findUserByEmail (email : Option String)
  | saveUser (id : ObjectId)
  | clearImage (filePath : String)
  | bcryptHash
  | bcryptCompare
  | jwtSign
deriving DecidableEq, Repr

/-- What running a handler leaves behind: the database, the calls made, and
either the response sent or the value handed to the error boundary. -/
structure Result where
  db : Db
  effects : List Effect
  outcome : Except Thrown Res

/-- The error handling middleware of `app.js`: `error.statusCode || 500`. -/
def errorBoundary (error : Thrown) : Res :=
  let status :=
    match error.statusCode with
    | some code => if code = 0 then 500 else code
    | none => 500
  ⟨status, .error error.message error.data⟩

/-- The response the client receives. -/
def Result.response (r : Result) : Res :=
  match r.outcome with
  | .ok res => res
  | .error e => errorBoundary e

/-- The HTTP status the client receives. -/
def Result.status (r : Result) : Nat := r.response.status

/-- The `.catch` block of every controller:
`if (!err.statusCode) err.statusCode = 500`. -/
def catchAsync (err : Thrown) : Thrown :=
  match err.statusCode with
  | some code => if code = 0 then { err with statusCode := some 500 } else err
  | none => { err with statusCode := some 500 }

/-- The image paths handed to `clearImage`, in order. -/
def clearedImages : List Effect → List String
  | [] => []
  | .clearImage p :: es => p :: clearedImages es
  | _ :: es => clearedImages es

/-! ## Store operations (Mongoose calls) -/

/-- Replace the first element satisfying `p` (an update of one document). -/
def replaceFirst {α : Type} (p : α → Bool) (new : α) : List α → List α
  | [] => []
  | x :: xs => if p x then new :: xs else x :: replaceFirst p new xs

/-- The call `Post.findById(id)`. -/
def findPostById (db : Db) (id : ObjectId) : Option Post :=
  db.posts.find? (fun p => p._id = id)

/-- The call `User.findById(id)`; an `undefined` id finds nothing. -/
def findUserById (db : Db) (id : Option ObjectId) : Option User :=
  match id with
  | none => none
  | some i => db.users.find? (fun u => u._id = i)

/-- The call `User.findOne(\x7b email \x7d)`; an `undefined` email is sent as
`null` and matches no user, `email` being a required path. -/
def findUserByEmail (db : Db) (email : Option String) : Option User :=
  match email with
  | none => none
  | some e => db.users.find? (fun u => u.email = e)

/-- Saving a new post document. -/
def insertPost (db : Db) (post : Post) : Db :=
  { db with posts := db.posts ++ [post], nextId := db.nextId + 1 }

/-- Saving a new user document. -/
def insertUser (db : Db) (user : User) : Db :=
  { db with users := db.users ++ [user], nextId := db.nextId + 1 }

/-- Saving a loaded, modified post document. -/
def savePost (db : Db) (post : Post) : Db :=
  { db with posts := replaceFirst (fun p => p._id = post._id) post db.posts }

/-- Saving a loaded, modified user document. -/
def saveUser (db : Db) (user : User) : Db :=
  { db with users := replaceFirst (fun u => u._id = user._id) user db.users }

/-- The call `Post.findByIdAndRemove(id)`. -/
def removePost (db : Db) (id : ObjectId) : Db :=
  { db with posts := db.posts.eraseP (fun p => p._id = id) }

/-- The call `.populate("creator")` on one post. -/
def populate (db : Db) (post : Post) : PopulatedPost :=
  ⟨post, findUserById db (some post.creator)⟩

/-- JavaScript truthiness of an optional text: `undefined` and the empty text
are falsy. -/
def truthyText (v : Option String) : Option String :=
  match v with
  | some s => if s = "" then none else some s
  | none => none

/-- The `required: true` check of a string path: present and not empty. -/
def requiredString (v : Option String) : Option String :=
  match v with
  | some s => if s = "" then none else some s
  | none => none

/-- The error of a rejected Mongoose or library call: it has no `statusCode`. -/
def internalError (message : String) : Thrown := ⟨none, some message, []⟩

/-! ## `middleware/is-auth.js` -/

/-- The middleware `is-auth`: the request handed to the next handler, or the
value thrown. -/
def isAuth (L : Lib) (req : Req) : Except Thrown Req :=
  match req.authorization with
  | none => .error ⟨some 401, some "Not authenticated", []⟩
  | some authValue =>
    if authValue = "" then .error ⟨some 401, some "Not authenticated", []⟩
    else
      let token := (jsSplitSpace authValue)[1]?
      match L.jwtVerify token secret req.now with
      | .error message => .error ⟨some 500, some message, []⟩
      | .ok none => .error ⟨some 401, some "Not authenticated", []⟩
      | .ok (some decodedToken) => .ok { req with userId := some decodedToken.userId }

/-- A route registered as `isAuth, handler`: the handler runs only when
`is-auth` calls `next()`. -/
def protect (L : Lib) (handler : Db → Req → Result) (db : Db) (req : Req) : Result :=
  match isAuth L req with
  | .error e => ⟨db, [], .error e⟩
  | .ok req1 => handler db req1

/-! ## `controllers/feed.js` -/

/-- The controller `getPosts`. A negative skip is rejected by the database. -/
def getPosts (db : Db) (req : Req) : Result :=
  let currentPage : Int :=
    match req.page with
    | some p => p
    | none => 1
  let perPage : Int := 5
  let totalItems := db.posts.length
  let skip := (currentPage - 1) * perPage
  if skip < 0 then
    ⟨db, [.countPosts], .error (catchAsync (internalError "Skip value must be non-negative"))⟩
  else
    let posts := ((db.posts.drop skip.toNat).take perPage.toNat).map (populate db)
    ⟨db, [.countPosts, .listPosts skip.toNat perPage.toNat],
      .ok ⟨200, .posts posts totalItems⟩⟩

/-- The controller `postPost`. -/
def postPost (db : Db) (req : Req) : Result :=
  if !req.validationErrors.isEmpty then
    ⟨db, [], .error ⟨some 422, some "Validation failed, entered data is incorrect", []⟩⟩
  else
    match req.file with
    | none =>
      -- `throw Error;` throws the constructor, not the `error` built above it
      ⟨db, [], .error ⟨none, none, []⟩⟩
    | some file =>
      let imageUrl := replaceBackslash file.path
      let title := req.body.title
      let content := req.body.content
      match requiredString title, requiredString (some imageUrl), requiredString content,
          req.userId with
      | some t, some i, some c, some creatorId =>
        let post : Post := ⟨db.nextId, t, i, c, creatorId⟩
        let db1 := insertPost db post
        match findUserById db1 req.userId with
        | none =>
          ⟨db1, [.savePost post._id, .findUser req.userId],
            .error (catchAsync (internalError "Cannot read property of null"))⟩
        | some user =>
          let creator : User := { user with posts := user.posts ++ [post._id] }
          ⟨saveUser db1 creator,
            [.savePost post._id, .findUser req.userId, .saveUser creator._id],
            .ok ⟨201, .created post creator._id creator.name⟩⟩
      | _, _, _, _ =>
        ⟨db, [.savePost db.nextId],
          .error (catchAsync (internalError "Post validation failed"))⟩

/-- The controller `getPost`. -/
def getPost (db : Db) (req : Req) : Result :=
  let postId := req.postId
  match findPostById db postId with
  | none => ⟨db, [.findPost postId], .error (catchAsync ⟨some 404, some "Could not find post", []⟩)⟩
  | some post => ⟨db, [.findPost postId], .ok ⟨200, .post post⟩⟩

/-- The image reference `updatePost` works with: `req.body.image`, overwritten
by the stored file path when multer attached a file; `none` when the result
is falsy. -/
def resolveImageUrl (req : Req) : Option String :=
  let imageUrl :=
    match req.file with
    | some file => some (replaceBackslash file.path)
    | none => req.body.image
  truthyText imageUrl

/-- The controller `updatePost`. -/
def updatePost (db : Db) (req : Req) : Result :=
  if !req.validationErrors.isEmpty then
    ⟨db, [], .error ⟨some 422, some "Validation failed, entered data is incorrect", []⟩⟩
  else
    let postId := req.postId
    let title := req.body.title
    let content := req.body.content
    match resolveImageUrl req with
    | none => ⟨db, [], .error ⟨some 422, some "No image file picked", []⟩⟩
    | some imageUrl =>
      match findPostById db postId with
      | none =>
        ⟨db, [.findPost postId], .error (catchAsync ⟨some 404, some "Could not find post", []⟩)⟩
      | some post =>
        if some post.creator ≠ req.userId then
          ⟨db, [.findPost postId], .error (catchAsync ⟨some 403, some "Not authorized", []⟩)⟩
        else
          let cleared : List Effect :=
            if imageUrl ≠ post.imageUrl then [.clearImage post.imageUrl] else []
          match requiredString title, requiredString content with
          | some t, some c =>
            let result : Post := { post with title := t, imageUrl := imageUrl, content := c }
            ⟨savePost db result, [.findPost postId] ++ cleared ++ [.savePost post._id],
              .ok ⟨200, .post result⟩⟩
          | _, _ =>
            ⟨db, [.findPost postId] ++ cleared ++ [.savePost post._id],
              .error (catchAsync (internalError "Post validation failed"))⟩

/-- The controller `deletePost`. -/
def deletePost (db : Db) (req : Req) : Result :=
  let postId := req.postId
  match findPostById db postId with
  | none =>
    ⟨db, [.findPost postId], .error (catchAsync ⟨some 404, some "Could not find post", []⟩)⟩
  | some post =>
    if some post.creator ≠ req.userId then
      ⟨db, [.findPost postId], .error (catchAsync ⟨some 403, some "Not authorized", []⟩)⟩
    else
      let db1 := removePost db postId
      match findUserById db1 req.userId with
      | none =>
        ⟨db1, [.findPost postId, .clearImage post.imageUrl, .removePost postId,
            .findUser req.userId],
          .error (catchAsync (internalError "Cannot read property of null"))⟩
      | some user =>
        let user1 : User := { user with posts := user.posts.filter (fun id => id ≠ postId) }
        ⟨saveUser db1 user1,
          [.findPost postId, .clearImage post.imageUrl, .removePost postId,
            .findUser req.userId, .saveUser user1._id],
          .ok ⟨200, .message "Deleted post"⟩⟩

/-! ## `controllers/auth.js` -/

/-- The controller `signup`. -/
def signup (L : Lib) (db : Db) (req : Req) : Result :=
  if !req.validationErrors.isEmpty then
    ⟨db, [], .error ⟨some 422, some "Validation failed", req.validationErrors⟩⟩
  else
    let email := req.body.email
    let name := req.body.name
    match req.body.password with
    | none =>
      ⟨db, [.bcryptHash],
        .error (catchAsync (internalError "Illegal arguments: undefined, number"))⟩
    | some password =>
      let hashedPw := L.bcryptHash password 12
      match requiredString email, requiredString (some hashedPw) with
      | some e, some pw =>
        let user : User := ⟨db.nextId, e, pw, name, some "I am new!", []⟩
        ⟨insertUser db user, [.bcryptHash, .saveUser user._id],
          .ok ⟨201, .userCreated user._id⟩⟩
      | _, _ =>
        ⟨db, [.bcryptHash, .saveUser db.nextId],
          .error (catchAsync (internalError "User validation failed"))⟩

/-- The controller `login`; the token expires one hour (3600 s) after issue. -/
def login (L : Lib) (db : Db) (req : Req) : Result :=
  let email := req.body.email
  let password := req.body.password
  match findUserByEmail db email with
  | none =>
    ⟨db, [.findUserByEmail email],
      .error (catchAsync ⟨some 401, some "A user with this email could not be found", []⟩)⟩
  | some loadedUser =>
    match password with
    | none =>
      ⟨db, [.findUserByEmail email, .bcryptCompare],
        .error (catchAsync (internalError "Illegal arguments: undefined, string"))⟩
    | some pw =>
      if !L.bcryptCompare pw loadedUser.password then
        ⟨db, [.findUserByEmail email, .bcryptCompare],
          .error (catchAsync ⟨some 401, some "Wrong password", []⟩)⟩
      else
        let token := L.jwtSign ⟨loadedUser.email, loadedUser._id⟩ secret 3600 req.now
        ⟨db, [.findUserByEmail email, .bcryptCompare, .jwtSign],
          .ok ⟨200, .token token loadedUser._id⟩⟩

/-- The controller `getUserStatus`. -/
def getUserStatus (db : Db) (req : Req) : Result :=
  match findUserById db req.userId with
  | none =>
    ⟨db, [.findUser req.userId], .error (catchAsync ⟨some 404, some "User not found", []⟩)⟩
  | some user => ⟨db, [.findUser req.userId], .ok ⟨200, .status user.status⟩⟩

/-- The controller `updateUserStatus`. It never reads `validationResult(req)`. -/
def updateUserStatus (db : Db) (req : Req) : Result :=
  let newStatus := req.body.status
  match findUserById db req.userId with
  | none =>
    ⟨db, [.findUser req.userId], .error (catchAsync ⟨some 404, some "User not found", []⟩)⟩
  | some user =>
    let user1 : User := { user with status := newStatus }
    ⟨saveUser db user1, [.findUser req.userId, .saveUser user1._id],
      .ok ⟨200, .message "User status updated"⟩⟩

/-! ## `routes/feed.js`, `routes/auth.js`: validation chains and routes -/

/-- The text a validation chain works on: express-validator turns an absent
field into the empty string. -/
def fieldText (v : Option String) : String := v.getD ""

/-- The chains `body("title").trim().isLength(min 5)` and
`body("content").trim().isLength(min 5)`; sanitizers write back to the body. -/
def feedValidators (req : Req) : Req :=
  let title := jsTrim (fieldText req.body.title)
  let content := jsTrim (fieldText req.body.content)
  let e1 := if 5 ≤ title.length then [] else ["title: Invalid value"]
  let e2 := if 5 ≤ content.length then [] else ["content: Invalid value"]
  { req with
    body := { req.body with title := some title, content := some content }
    validationErrors := e1 ++ e2 }

/-- The chains of `PUT /auth/signup`. -/
def signupValidators (L : Lib) (db : Db) (req : Req) : Req :=
  let rawEmail := fieldText req.body.email
  let e1 := if L.isEmail rawEmail then [] else ["Please enter a valid email."]
  let email := L.normalizeEmail rawEmail
  let e2 :=
    match findUserByEmail db (some email) with
    | some _ => ["Email address already exists"]
    | none => []
  let password := jsTrim (fieldText req.body.password)
  let e3 := if 5 ≤ password.length then [] else ["password: Invalid value"]
  let name := jsTrim (fieldText req.body.name)
  let e4 := if name.length = 0 then ["name: Invalid value"] else []
  { req with
    body := { req.body with email := some email, password := some password, name := some name }
    validationErrors := e1 ++ e2 ++ e3 ++ e4 }

/-- The chain of `POST /auth/login`: `body("email").normalizeEmail()`. -/
def loginValidators (L : Lib) (req : Req) : Req :=
  { req with
    body := { req.body with email := some (L.normalizeEmail (fieldText req.body.email)) }
    validationErrors := [] }

/-- The chain of `PATCH /auth/status`: `body("status").trim().not().isEmpty()`. -/
def statusValidators (req : Req) : Req :=
  let status := jsTrim (fieldText req.body.status)
  let e1 := if status.length = 0 then ["status: Invalid value"] else []
  { req with body := { req.body with status := some status }, validationErrors := e1 }

namespace Route

/-- Route `GET /feed/posts`. -/
def getPosts (L : Lib) : Db → Req → Result := protect L SocialBlog.getPosts

/-- Route `POST /feed/post`. -/
def postPost (L : Lib) : Db → Req → Result :=
  protect L (fun db req => SocialBlog.postPost db (feedValidators req))

/-- Route `GET /feed/post/:postId`. -/
def getPost (L : Lib) : Db → Req → Result := protect L SocialBlog.getPost

/-- Route `PUT /feed/post/:postId`. -/
def updatePost (L : Lib) : Db → Req → Result :=
  protect L (fun db req => SocialBlog.updatePost db (feedValidators req))

/-- Route `DELETE /feed/post/:postId`. -/
def deletePost (L : Lib) : Db → Req → Result := protect L SocialBlog.deletePost

/-- Route `PUT /auth/signup`. -/
def signup (L : Lib) (db : Db) (req : Req) : Result :=
  SocialBlog.signup L db (signupValidators L db req)

/-- Route `POST /auth/login`. -/
def login (L : Lib) (db : Db) (req : Req) : Result :=
  SocialBlog.login L db (loginValidators L req)

/-- Route `GET /auth/status`. -/
def getUserStatus (L : Lib) : Db → Req → Result := protect L SocialBlog.getUserStatus

/-- Route `PATCH /auth/status`. -/
def updateUserStatus (L : Lib) : Db → Req → Result :=
  protect L (fun db req => SocialBlog.updateUserStatus db (statusValidators req))

end Route

/-! ## A library instance for evaluating the handlers

`demoLib` is a small deterministic stand-in for validator.js, bcryptjs and
jsonwebtoken, used only to run the handlers on concrete requests: an address
is valid when it contains `@`, normalisation is the identity, the hash of
a password is the password behind a marker, and a token is readable only as
the fixed text `token-of-1`. -/

/-- Sample library instance. -/
def demoLib : Lib where
  isEmail := fun s => s.toList.contains '@'
  normalizeEmail := fun s => s
  bcryptHash := fun pw _ => "$2a$" ++ pw
  bcryptCompare := fun pw h => decide (h = "$2a$" ++ pw)
  jwtSign := fun p _ _ _ => "token-of-" ++ toString p.userId
  jwtVerify := fun tok _ _ =>
    if tok = some "token-of-1" then .ok (some ⟨"b@x.com", 1⟩)
    else if tok = some "token-of-0" then .ok (some ⟨"a@x.com", 0⟩)
    else .error "invalid token"

/-! ## Predicates on requests -/

/-- The request passed `is-auth` as the user `uid`. -/
def Authenticated (L : Lib) (req : Req) (uid : ObjectId) : Prop :=
  ∃ authValue email, req.authorization = some authValue ∧ authValue ≠ "" ∧
    L.jwtVerify ((jsSplitSpace authValue)[1]?) secret req.now = .ok (some ⟨email, uid⟩)

/-- Title and content pass the chains of the feed routes. -/
def FeedValid (req : Req) : Prop :=
  5 ≤ (jsTrim (fieldText req.body.title)).length ∧
  5 ≤ (jsTrim (fieldText req.body.content)).length

/-! ## Sample data for evaluating the handlers -/

/-- Stored user 0. -/
def ann : User := ⟨0, "a@x.com", "$2a$secret1", some "Ann", some "I am new!", [2]⟩
/-- Stored user 1. -/
def bob : User := ⟨1, "b@x.com", "$2a$hunter22", some "Bob", some "I am new!", []⟩
/-- A post created by user 0. -/
def helloPost : Post := ⟨2, "Hello World", "images/cat.png", "Hello content!", 0⟩
/-- A database with two users and one post. -/
def sampleDb : Db := ⟨[ann, bob], [helloPost], 3⟩

/-- A create request by user 0 with valid title and content and no file. -/
def createWithoutFile : Req :=
  { authorization := some "Bearer token-of-0"
    body := { title := some "Hello World", content := some "Hello content!" } }

/-- A request whose token does not verify. -/
def forgedToken : Req := { authorization := some "Bearer forged" }

/-- A `PATCH /auth/status` by user 0 whose status is white space only. -/
def blankStatus : Req :=
  { authorization := some "Bearer token-of-0", body := { status := some "   " } }

/-- A `PATCH /auth/status` by user 0 without a `status` field. -/
def missingStatus : Req := { authorization := some "Bearer token-of-0" }

/-- The request carries an image reference: a stored file or a non-empty
`image` text in the body. -/
def HasImage (req : Req) : Prop := (resolveImageUrl req).isSome

/-- Whether a request carries an image reference can be computed. -/
instance (req : Req) : Decidable (HasImage req) := by
  unfold HasImage; infer_instance

/-- Whether title and content are valid can be computed. -/
instance (req : Req) : Decidable (FeedValid req) := by
  unfold FeedValid; infer_instance

/-- An update of post 2 attempted by user 1, who did not create it. -/
def updateByOther : Req :=
  { authorization := some "Bearer token-of-1", postId := 2
    body := { title := some "Edited title", content := some "Edited content",
              image := some "images/cat.png" } }

/-- A signup whose password starts with a space. -/
def signupAnn : Req :=
  { body := { email := some "a@x.com", name := some "Ann", password := some " secret1" } }

/-- A login with the email and password text of `signupAnn`. -/
def loginAnn : Req :=
  { body := { email := some "a@x.com", password := some " secret1" } }

/-- A listing request by user 0 for page 1 of `sampleDb`. -/
def listFirstPage : Req := { authorization := some "Bearer token-of-0", page := some 1 }

/-- The creator of `post` sends a valid update of it whose image reference
differs from the stored one. -/
def UpdateChangesImage (L : Lib) (db : Db) (req : Req) (post : Post) : Prop :=
  ∃ img, Authenticated L req post.creator ∧ FeedValid req ∧
    resolveImageUrl req = some img ∧ findPostById db req.postId = some post ∧
    img ≠ post.imageUrl

/-- The creator of `post` asks for its deletion: the request passes the
not-found and authorization checks of `deletePost`. -/
def DeleteAccepted (L : Lib) (db : Db) (req : Req) (post : Post) : Prop :=
  Authenticated L req post.creator ∧ findPostById db req.postId = some post

/-- The post the creator's accepted update writes. -/
def updatedPost (req : Req) (img : String) (post : Post) : Post :=
  { post with
    title := jsTrim (fieldText req.body.title)
    imageUrl := img
    content := jsTrim (fieldText req.body.content) }

/-- An update of post 2 by its creator with a new image reference. -/
def updateByCreator : Req :=
  { authorization := some "Bearer token-of-0", postId := 2
    body := { title := some "Edited title", content := some "Edited content",
              image := some "images/dog.png" } }

/-- A file stored by multer on a host whose paths use backslashes. -/
def winFile : File := ⟨"image/png", "7c9e6679", .win32⟩

/-- An update of post 2 by its creator that uploads `winFile`. -/
def updateWithFile : Req :=
  { authorization := some "Bearer token-of-0", postId := 2, file := some winFile
    body := { title := some "Edited title", content := some "Edited content",
              image := some "images/cat.png" } }

/-- An update of post 2 by its creator with neither file nor image text. -/
def updateWithoutImage : Req :=
  { authorization := some "Bearer token-of-0", postId := 2
    body := { title := some "Edited title", content := some "Edited content" } }

/-- The emails of the stored users, in storage order. -/
def Db.emails (db : Db) : List String := db.users.map User.email

/-- The route `PUT /auth/signup` with its two asynchronous steps on possibly
different stores: the validation chain looks the email up in `seen`, the store
as it is when the validator runs; the controller saves into `db`, the store as
it is when `bcrypt.hash` has resolved. Other requests may have written in
between; `models/user.js` declares no unique index on `email`. -/
def signupOverlapped (L : Lib) (seen db : Db) (req : Req) : Result :=
  SocialBlog.signup L db (signupValidators L seen req)

/-- The database after a sequence of signup requests handled in turn: each
request is validated and saved, on the same store, before the next one is
validated. -/
def signupsInTurn (L : Lib) (db : Db) (reqs : List Req) : Db :=
  reqs.foldl (fun d req => (signupOverlapped L d d req).db) db

/-- A second signup with the email of `signupAnn`. -/
def signupAnnAgain : Req :=
  { body := { email := some "a@x.com", name := some "Anna", password := some "another1" } }

/-- A token was issued: `jwt.sign` was called or the response carries a token. -/
def TokenIssued (r : Result) : Prop :=
  Effect.jwtSign ∈ r.effects ∨ ∃ tok uid, r.response.body = .token tok uid

/-- A login with Ann's email and a wrong password. -/
def loginWrongPassword : Req :=
  { body := { email := some "a@x.com", password := some "secret2" } }

/-- A login with an email no stored user has. -/
def loginUnknownEmail : Req :=
  { body := { email := some "c@x.com", password := some "secret1" } }



/-! ## `app.js`: the upload filter -/

/-- The filter `fileFilter` of `app.js`, as the arguments it hands to its
callback: the error (always `null`) and whether the file is kept. -/
def fileFilter (file : File) : Option Thrown × Bool :=
  if file.mimetype = "image/png" ∨ file.mimetype = "image/jpeg" ∨
      file.mimetype = "image/jpg" then
    (none, true)
  else
    (none, false)

/-- The middleware `multer(...).single("image")` with `fileFilter`: the value
of `req.file` seen by the handlers, or the error signalled. -/
def multerSingle (upload : Option File) : Except Thrown (Option File) :=
  match upload with
  | none => .ok none
  | some file =>
    match fileFilter file with
    | (some err, _) => .error err
    | (none, true) => .ok (some file)
    | (none, false) => .ok none

/-- An uploaded GIF. -/
def gifFile : File := ⟨"image/gif", "0f8fad5b", .posix⟩

/-- The identifier and creator of a post. -/
def Post.key (p : Post) : ObjectId × ObjectId := (p._id, p.creator)

/-- The post `postPost` builds for the caller `uid`. -/
def createdPost (db : Db) (req : Req) (file : File) (uid : ObjectId) : Post :=
  ⟨db.nextId, jsTrim (fieldText req.body.title), replaceBackslash file.path,
    jsTrim (fieldText req.body.content), uid⟩

/-- A request with the header `Token token-of-1`. -/
def otherScheme : Req := { authorization := some "Token token-of-1" }





/-- A deletion of post 2 by its creator. -/
def deleteByCreator : Req := { authorization := some "Bearer token-of-0", postId := 2 }

/-- A create request by user 0 whose title starts with spaces. -/
def createPadded : Req :=
  { authorization := some "Bearer token-of-0"
    file := some ⟨"image/png", "3f2504e0", .posix⟩
    body := { title := some "  Hello World", content := some "Hello content!" } }



/-! ## Sequences of requests and the link between users and posts -/

/-- The identifier and creator of every stored post, in storage order. -/
def Db.keys (db : Db) : List (ObjectId × ObjectId) := db.posts.map Post.key

/-- The ids of the stored posts created by `uid`, in storage order. -/
def postIdsOf (db : Db) (uid : ObjectId) : List ObjectId :=
  (db.posts.filter (fun p => p.creator = uid)).map Post._id

/-- The properties of the database kept by every request: user identifiers are
pairwise distinct and were issued before `nextId`; post identifiers increase
along the storage order (so storage order is creation order) and were issued
before `nextId`; every creator is a stored user; and the posts of every user
are the ids of the stored posts it created, in storage order. -/
structure Consistent (db : Db) : Prop where
  userIds : (db.users.map User._id).Nodup
  usersFresh : ∀ i ∈ db.users.map User._id, i < db.nextId
  postsSorted : (db.keys.map Prod.fst).Pairwise (fun a b => a < b)
  postsFresh : ∀ k ∈ db.keys, k.1 < db.nextId
  creators : ∀ k ∈ db.keys, k.2 ∈ db.users.map User._id
  linked : ∀ u ∈ db.users, u.posts = (db.keys.filter (fun k => k.2 = u._id)).map Prod.fst



/-- A request to one of the four routes that write to the store. -/
inductive FeedRequest where
  | signup (req : Req)
  | postPost (req : Req)
  | updatePost (req : Req)
  | deletePost (req : Req)

/-- The database after one request. -/
def step (L : Lib) (db : Db) : FeedRequest → Db
  | .signup req => (Route.signup L db req).db
  | .postPost req => (Route.postPost L db req).db
  | .updatePost req => (Route.updatePost L db req).db
  | .deletePost req => (Route.deletePost L db req).db

/-- The database after a sequence of requests handled one at a time: each
request completes before the next starts. -/
def run (L : Lib) (db : Db) (rs : List FeedRequest) : Db := rs.foldl (step L) db

/-- A create request that passes `is-auth` does so as a stored user: tokens
are issued by `login` to stored users, and users are never deleted. -/
def CallerStored (L : Lib) (db : Db) : FeedRequest → Prop
  | .postPost req => ∀ uid, Authenticated L req uid → (findUserById db (some uid)).isSome
  | _ => True

/-- Every request of the sequence satisfies `CallerStored` in the database it
is handled in. -/
def CallersStored (L : Lib) : Db → List FeedRequest → Prop
  | _, [] => True
  | db, r :: rs => CallerStored L db r ∧ CallersStored L (step L db r) rs

/-- Ann signs up, creates a post and edits it; a second signup with her email
is refused. -/
def sampleSession : List FeedRequest :=
  [.signup signupAnn, .postPost createPadded,
    .updatePost { updateByCreator with postId := 1 }, .signup signupAnnAgain]

/-- A token jsonwebtoken cannot take apart: none was found in the header value,
or the text is not made of three segments separated by dots. -/
def Malformed (token : Option String) : Prop :=
  match token with
  | none => True
  | some t => (splitChars '.' t.toList).length ≠ 3

/-- Whether a token is malformed can be computed. -/
instance (token : Option String) : Decidable (Malformed token) := by
  unfold Malformed
  cases token <;> infer_instance

/-- A login with Ann's email and no password field. -/
def loginNoPassword : Req := { body := { email := some "a@x.com" } }

/-- A create request whose token names user 1. -/
def createByUnknown : Req := { createPadded with authorization := some "Bearer token-of-1" }

/-- A create request by a caller that is not stored, followed by the signup
that is given the caller's identifier. -/
def badSession : List FeedRequest := [.postPost createByUnknown, .signup signupAnn]

/-- The store between the two writes of `postPost`: `post.save()` has
resolved, `user.save()` has not yet run. -/
def afterPostSave (db : Db) (req : Req) (file : File) (uid : ObjectId) : Db :=
  insertPost db (createdPost db req file uid)

/-! ## Theorems -/

/-- A request that passes `is-auth` is handed on with `userId` set. -/
theorem isAuth_of_authenticated {L : Lib} {req : Req} {uid : ObjectId}
    (h : Authenticated L req uid) : isAuth L req = .ok { req with userId := some uid } := by
  obtain ⟨authValue, email, h1, h2, h3⟩ := h
  simp [isAuth, h1, h2, h3]

/-- On an authenticated request a protected route runs its handler. -/
theorem protect_of_authenticated {L : Lib} {req : Req} {uid : ObjectId}
    (h : Authenticated L req uid) (handler : Db → Req → Result) (db : Db) :
    protect L handler db req = handler db { req with userId := some uid } := by
  simp [protect, isAuth_of_authenticated h]

/-- Valid title and content leave `validationResult(req)` empty. -/
theorem feedValidators_errors {req : Req} (h : FeedValid req) :
    (feedValidators req).validationErrors = [] := by
  simp [feedValidators, h.1, h.2]

/-- C1 (evaluation at the failing input): an authenticated create request with
valid title and content and no attached file is answered with status 500, not
422, because `postPost` throws the `Error` constructor instead of the error it
built; no post is stored. -/
theorem postPost_missing_file_status :
    (feedValidators createWithoutFile).validationErrors = [] ∧
    createWithoutFile.file = none ∧
    (Route.postPost demoLib sampleDb createWithoutFile).status = 500 ∧
    (Route.postPost demoLib sampleDb createWithoutFile).status ≠ 422 ∧
    (Route.postPost demoLib sampleDb createWithoutFile).db = sampleDb := by
  decide

/-- C2 (counterexample): a request whose header is present and whose token is
malformed, hence rejected by the verifier, is answered with status 500, not
401. -/
theorem rejected_token_status_is_500 :
    forgedToken.authorization = some "Bearer forged" ∧
    Malformed ((jsSplitSpace "Bearer forged")[1]?) ∧
    demoLib.jwtVerify ((jsSplitSpace "Bearer forged")[1]?) secret forgedToken.now
      = .error "invalid token" ∧
    isAuth demoLib forgedToken = .error ⟨some 500, some "invalid token", []⟩ ∧
    (Route.getPosts demoLib sampleDb forgedToken).status = 500 ∧
    (Route.getPosts demoLib sampleDb forgedToken).status ≠ 401 := by
  refine ⟨rfl, by decide, rfl, rfl, ?_, ?_⟩ <;> decide

/-- C2 (amended): for every request whose Authorization header is present and
non-empty and whose token fails verification, `is-auth` throws and a protected
route does not run its handler: the database is untouched and no call is
made. When the token is malformed (none in the header value, or not three
segments separated by dots), the error thrown has status code 500 and the
route answers 500. -/
theorem isAuth_rejected_token (L : Lib) (handler : Db → Req → Result) (db : Db) (req : Req)
    (authValue message : String)
    (hHeader : req.authorization = some authValue) (hNonEmpty : authValue ≠ "")
    (hVerify : L.jwtVerify ((jsSplitSpace authValue)[1]?) secret req.now = .error message) :
    (∃ e, isAuth L req = .error e ∧ protect L handler db req = ⟨db, [], .error e⟩) ∧
    (Malformed ((jsSplitSpace authValue)[1]?) →
      isAuth L req = .error ⟨some 500, some message, []⟩ ∧
      (protect L handler db req).status = 500) := by
  have h : isAuth L req = .error ⟨some 500, some message, []⟩ := by
    simp [isAuth, hHeader, hNonEmpty, hVerify]
  refine ⟨⟨_, h, ?_⟩, fun _ => ⟨h, ?_⟩⟩
  · simp [protect, h]
  · simp [protect, h, Result.status, Result.response, errorBoundary]

/-- Witness of `isAuth_rejected_token` on a malformed token. -/
theorem isAuth_rejected_token_witness :
    (∃ e, isAuth demoLib forgedToken = .error e ∧
      protect demoLib SocialBlog.getPosts sampleDb forgedToken = ⟨sampleDb, [], .error e⟩) ∧
    (protect demoLib SocialBlog.getPosts sampleDb forgedToken).status = 500 :=
  have h := isAuth_rejected_token demoLib SocialBlog.getPosts sampleDb forgedToken
    "Bearer forged" "invalid token" rfl (by decide) rfl
  ⟨h.1, (h.2 (by decide)).2⟩

/-- C3 (evaluation at the failing input): a `PATCH /auth/status` whose status
is blank, or absent, fails the validation chain and is nevertheless answered
with status 200, the stored status being overwritten with the empty text:
`updateUserStatus` never reads the validation result. -/
theorem updateUserStatus_blank_status :
    (statusValidators blankStatus).validationErrors ≠ [] ∧
    (Route.updateUserStatus demoLib sampleDb blankStatus).status = 200 ∧
    findUserById sampleDb (some 0) = some ann ∧ ann.status = some "I am new!" ∧
    findUserById (Route.updateUserStatus demoLib sampleDb blankStatus).db (some 0)
      = some { ann with status := some "" } ∧
    (Route.updateUserStatus demoLib sampleDb missingStatus).status = 200 ∧
    findUserById (Route.updateUserStatus demoLib sampleDb missingStatus).db (some 0)
      = some { ann with status := some "" } := by
  decide

/-- The feed validation chains do not touch the image reference. -/
theorem resolveImageUrl_feedValidators (req : Req) :
    resolveImageUrl (feedValidators req) = resolveImageUrl req := rfl

/-- C4: for every stored post and every authenticated caller other than its
creator, `updatePost` (valid body, image reference present) and `deletePost`
answer 403 and leave the whole database, hence the post and every posts
collection, as it was. -/
theorem non_creator_forbidden (L : Lib) (db : Db) (req : Req) (uid : ObjectId) (post : Post)
    (hAuth : Authenticated L req uid)
    (hStored : findPostById db req.postId = some post)
    (hOther : uid ≠ post.creator) :
    (FeedValid req → HasImage req →
      (Route.updatePost L db req).status = 403 ∧ (Route.updatePost L db req).db = db) ∧
    (Route.deletePost L db req).status = 403 ∧ (Route.deletePost L db req).db = db := by
  have hne : ¬ post.creator = uid := fun h => hOther h.symm
  refine ⟨?_, ?_, ?_⟩
  · intro hValid hImage
    obtain ⟨img, himg⟩ := Option.isSome_iff_exists.mp hImage
    have himg1 : resolveImageUrl (feedValidators { req with userId := some uid }) = some img := by
      rw [resolveImageUrl_feedValidators]; exact himg
    have hv : (feedValidators { req with userId := some uid }).validationErrors = [] :=
      @feedValidators_errors { req with userId := some uid } hValid
    have hf : findPostById db (feedValidators { req with userId := some uid }).postId
        = some post := hStored
    have hu : (feedValidators { req with userId := some uid }).userId = some uid := rfl
    simp [Route.updatePost, protect_of_authenticated hAuth, SocialBlog.updatePost, hv, himg1,
      hf, hu, hne, Result.status, Result.response, errorBoundary, catchAsync]
  · simp [Route.deletePost, protect_of_authenticated hAuth, SocialBlog.deletePost, hStored, hne,
      Result.status, Result.response, errorBoundary, catchAsync]
  · simp [Route.deletePost, protect_of_authenticated hAuth, SocialBlog.deletePost, hStored, hne]

/-- Witness of `non_creator_forbidden`: user 1 on the post of user 0. -/
theorem non_creator_forbidden_witness :
    ((Route.updatePost demoLib sampleDb updateByOther).status = 403 ∧
      (Route.updatePost demoLib sampleDb updateByOther).db = sampleDb) ∧
    (Route.deletePost demoLib sampleDb updateByOther).status = 403 ∧
    (Route.deletePost demoLib sampleDb updateByOther).db = sampleDb :=
  have h := non_creator_forbidden demoLib sampleDb updateByOther 1 helloPost
    ⟨"Bearer token-of-1", "b@x.com", rfl, by decide, rfl⟩ (by decide) (by decide)
  ⟨h.1 (by decide) (by decide), h.2⟩

/-- C5 (evaluation at the failing input): signup accepts the password
`" secret1"` (length 7 after trimming) and stores the hash of the trimmed
text; the login route does not trim, so a login with the same email and the
same password text is answered 401, while the trimmed text logs in. -/
theorem login_after_signup_untrimmed_password :
    (Route.signup demoLib Db.empty signupAnn).status = 201 ∧
    (Route.signup demoLib Db.empty signupAnn).db.users
      = [⟨0, "a@x.com", demoLib.bcryptHash "secret1" 12, some "Ann", some "I am new!", []⟩] ∧
    (Route.login demoLib (Route.signup demoLib Db.empty signupAnn).db loginAnn).status = 401 ∧
    (Route.login demoLib (Route.signup demoLib Db.empty signupAnn).db loginAnn).response.body
      = .error (some "Wrong password") [] ∧
    (Route.login demoLib (Route.signup demoLib Db.empty signupAnn).db
      { body := { email := some "a@x.com", password := some "secret1" } }).status = 200 := by
  decide

/-- The skip computed by `getPosts` for a page number of at least 1. -/
theorem getPosts_skip (p : Nat) (h : 1 ≤ p) :
    ¬ (((p : Int) - 1) * 5 < 0) ∧ (((p : Int) - 1) * 5).toNat = (p - 1) * 5 := by
  constructor <;> omega

/-- C6: for every database and every authenticated listing request whose page
number p is at least 1 (p is 1 when the parameter is absent), `getPosts`
answers 200 with the posts obtained from the stored list by dropping
`(p - 1) * 5` and taking 5, each with its creator populated, at most 5 of
them, and with `totalItems` the length of the stored list. -/
theorem getPosts_page (L : Lib) (db : Db) (req : Req) (uid : ObjectId)
    (hAuth : Authenticated L req uid) (hPage : ∀ p, req.page = some p → 1 ≤ p) :
    ∃ posts : List PopulatedPost,
      (Route.getPosts L db req).outcome = .ok ⟨200, .posts posts db.posts.length⟩ ∧
      (Route.getPosts L db req).status = 200 ∧
      posts = ((db.posts.drop ((req.page.getD 1 - 1) * 5)).take 5).map (populate db) ∧
      posts.map PopulatedPost.post = (db.posts.drop ((req.page.getD 1 - 1) * 5)).take 5 ∧
      posts.length ≤ 5 ∧
      (Route.getPosts L db req).db = db := by
  refine ⟨((db.posts.drop ((req.page.getD 1 - 1) * 5)).take 5).map (populate db), ?_, ?_, rfl,
    ?_, ?_, ?_⟩
  · cases hp : req.page with
    | none => simp [Route.getPosts, protect_of_authenticated hAuth, SocialBlog.getPosts, hp]
    | some p =>
      have h := getPosts_skip p (hPage p hp)
      simp [Route.getPosts, protect_of_authenticated hAuth, SocialBlog.getPosts, hp, h.1, h.2]
  · cases hp : req.page with
    | none =>
      simp [Route.getPosts, protect_of_authenticated hAuth, SocialBlog.getPosts, hp,
        Result.status, Result.response]
    | some p =>
      have h := getPosts_skip p (hPage p hp)
      simp [Route.getPosts, protect_of_authenticated hAuth, SocialBlog.getPosts, hp, h.1,
        Result.status, Result.response]
  · simp [List.map_map, Function.comp_def, populate]
  · simp [List.length_take]
  · cases hp : req.page with
    | none => simp [Route.getPosts, protect_of_authenticated hAuth, SocialBlog.getPosts, hp]
    | some p =>
      have h := getPosts_skip p (hPage p hp)
      simp [Route.getPosts, protect_of_authenticated hAuth, SocialBlog.getPosts, hp, h.1]

/-- Witness of `getPosts_page`: page 1 of the sample database. -/
theorem getPosts_page_witness :
    ∃ posts : List PopulatedPost,
      (Route.getPosts demoLib sampleDb listFirstPage).outcome
        = .ok ⟨200, .posts posts sampleDb.posts.length⟩ ∧
      (Route.getPosts demoLib sampleDb listFirstPage).status = 200 ∧
      posts = ((sampleDb.posts.drop ((listFirstPage.page.getD 1 - 1) * 5)).take 5).map
        (populate sampleDb) ∧
      posts.map PopulatedPost.post
        = (sampleDb.posts.drop ((listFirstPage.page.getD 1 - 1) * 5)).take 5 ∧
      posts.length ≤ 5 ∧
      (Route.getPosts demoLib sampleDb listFirstPage).db = sampleDb :=
  getPosts_page demoLib sampleDb listFirstPage 0
    ⟨"Bearer token-of-0", "a@x.com", rfl, by decide, rfl⟩ (by decide)

/-- A text of at least five characters passes the `required` check. -/
theorem requiredString_of_length {s : String} (h : 5 ≤ s.length) :
    requiredString (some s) = some s := by
  have hne : s ≠ "" := by
    intro hs
    rw [hs] at h
    exact absurd h (by decide)
  simp [requiredString, hne]

/-- The validation result of the feed chains is empty exactly for valid
title and content. -/
theorem feedValidators_errors_iff (req : Req) :
    (feedValidators req).validationErrors = [] ↔ FeedValid req := by
  unfold feedValidators FeedValid
  by_cases h1 : 5 ≤ (jsTrim (fieldText req.body.title)).length <;>
  by_cases h2 : 5 ≤ (jsTrim (fieldText req.body.content)).length <;>
  simp [h1, h2]

/-- When `is-auth` hands a request on, the request was authenticated and only
`userId` was written. -/
theorem isAuth_ok_inv {L : Lib} {req r : Req} (h : isAuth L req = .ok r) :
    ∃ uid, Authenticated L req uid ∧ r = { req with userId := some uid } := by
  unfold isAuth at h
  cases ha : req.authorization with
  | none => simp [ha] at h
  | some authValue =>
    simp only [ha] at h
    by_cases he : authValue = ""
    · simp [he] at h
    · simp only [he, if_false] at h
      cases hv : L.jwtVerify ((jsSplitSpace authValue)[1]?) secret req.now with
      | error m => simp [hv] at h
      | ok d =>
        cases d with
        | none => simp [hv] at h
        | some p =>
          simp only [hv] at h
          refine ⟨p.userId, ⟨authValue, p.email, ha, he, ?_⟩, ?_⟩
          · simpa using hv
          · injection h with h; exact h.symm

/-- The user a request is authenticated as is determined by the request. -/
theorem Authenticated.unique {L : Lib} {req : Req} {u v : ObjectId}
    (hu : Authenticated L req u) (hv : Authenticated L req v) : u = v := by
  have h1 := isAuth_of_authenticated hu
  have h2 := isAuth_of_authenticated hv
  rw [h1] at h2
  injection h2 with h2
  have := congrArg Req.userId h2
  simpa using this

/-- The route `PUT /feed/post/:postId` on a valid update sent by the creator
of a stored post. -/
theorem updatePost_by_creator {L : Lib} {db : Db} {req : Req} {post : Post} {img : String}
    (hAuth : Authenticated L req post.creator) (hValid : FeedValid req)
    (hImg : resolveImageUrl req = some img) (hFind : findPostById db req.postId = some post) :
    Route.updatePost L db req =
      ⟨savePost db (updatedPost req img post),
        [.findPost req.postId] ++
          (if img ≠ post.imageUrl then [.clearImage post.imageUrl] else []) ++
          [.savePost post._id],
        .ok ⟨200, .post (updatedPost req img post)⟩⟩ := by
  have hv : (feedValidators { req with userId := some post.creator }).validationErrors = [] :=
    @feedValidators_errors { req with userId := some post.creator } hValid
  have himg1 : resolveImageUrl (feedValidators { req with userId := some post.creator })
      = some img := by
    rw [resolveImageUrl_feedValidators]; exact hImg
  have hf : findPostById db (feedValidators { req with userId := some post.creator }).postId
      = some post := hFind
  have ht : requiredString (feedValidators { req with userId := some post.creator }).body.title
      = some (jsTrim (fieldText req.body.title)) := requiredString_of_length hValid.1
  have hc : requiredString (feedValidators { req with userId := some post.creator }).body.content
      = some (jsTrim (fieldText req.body.content)) := requiredString_of_length hValid.2
  have hu : (feedValidators { req with userId := some post.creator }).userId
      = some post.creator := rfl
  have hp : (feedValidators { req with userId := some post.creator }).postId = req.postId := rfl
  simp only [Route.updatePost, protect_of_authenticated hAuth, SocialBlog.updatePost, hv, himg1,
    hf, ht, hc, hu, hp, updatedPost]
  simp [hFind]

/-- The route `PUT /feed/post/:postId` hands an image to `clearImage` only in
the case of `UpdateChangesImage`; every other outcome has one of the statuses
listed or is the creator's update with an unchanged reference. -/
theorem updatePost_not_cleared (L : Lib) (db : Db) (req : Req)
    (h : ¬ ∃ post, UpdateChangesImage L db req post) :
    clearedImages (Route.updatePost L db req).effects = [] := by
  unfold Route.updatePost protect
  cases hA : isAuth L req with
  | error e => simp [clearedImages]
  | ok r =>
    obtain ⟨uid, hAuth, rfl⟩ := isAuth_ok_inv hA
    simp only []
    by_cases hValid : FeedValid req
    · cases hImg : resolveImageUrl req with
      | none =>
        have himg1 : resolveImageUrl (feedValidators { req with userId := some uid }) = none := by
          rw [resolveImageUrl_feedValidators]; exact hImg
        have hv : (feedValidators { req with userId := some uid }).validationErrors = [] :=
          @feedValidators_errors { req with userId := some uid } hValid
        simp [SocialBlog.updatePost, hv, himg1, clearedImages]
      | some img =>
        cases hFind : findPostById db req.postId with
        | none =>
          have himg1 : resolveImageUrl (feedValidators { req with userId := some uid })
              = some img := by
            rw [resolveImageUrl_feedValidators]; exact hImg
          have hv : (feedValidators { req with userId := some uid }).validationErrors = [] :=
            @feedValidators_errors { req with userId := some uid } hValid
          have hf : findPostById db (feedValidators { req with userId := some uid }).postId
              = none := hFind
          simp [SocialBlog.updatePost, hv, himg1, hf, clearedImages]
        | some post =>
          by_cases hc : post.creator = uid
          · subst hc
            have hsame : img = post.imageUrl := by
              by_contra hne
              exact h ⟨post, img, hAuth, hValid, hImg, hFind, hne⟩
            have := updatePost_by_creator hAuth hValid hImg hFind
            simp only [Route.updatePost, protect_of_authenticated hAuth] at this
            rw [this]
            simp [hsame, clearedImages]
          · have himg1 : resolveImageUrl (feedValidators { req with userId := some uid })
                = some img := by
              rw [resolveImageUrl_feedValidators]; exact hImg
            have hv : (feedValidators { req with userId := some uid }).validationErrors = [] :=
              @feedValidators_errors { req with userId := some uid } hValid
            have hf : findPostById db (feedValidators { req with userId := some uid }).postId
                = some post := hFind
            have hu : (feedValidators { req with userId := some uid }).userId = some uid := rfl
            simp [SocialBlog.updatePost, hv, himg1, hf, hu, hc, clearedImages]
    · have hv : (feedValidators { req with userId := some uid }).validationErrors ≠ [] := by
        intro hv
        exact hValid ((feedValidators_errors_iff { req with userId := some uid }).mp hv)
      have hv1 : (feedValidators { req with userId := some uid }).validationErrors.isEmpty
          = false := by
        cases hl : (feedValidators { req with userId := some uid }).validationErrors with
        | nil => exact absurd hl hv
        | cons a l => rfl
      simp [SocialBlog.updatePost, hv1, clearedImages]
/-- Removing a post leaves the users as they were. -/
theorem findUserById_removePost (db : Db) (id : ObjectId) (uid : Option ObjectId) :
    findUserById (removePost db id) uid = findUserById db uid := by
  cases uid <;> rfl

/-- The route `DELETE /feed/post/:postId` on a request by the creator of a
stored post: the stored image is handed to `clearImage` once, and the answer
is 200 when the creator is a stored user (500 otherwise). -/
theorem deletePost_by_creator {L : Lib} {db : Db} {req : Req} {post : Post}
    (h : DeleteAccepted L db req post) :
    clearedImages (Route.deletePost L db req).effects = [post.imageUrl] ∧
    ((findUserById db (some post.creator)).isSome → (Route.deletePost L db req).status = 200) ∧
    ((Route.deletePost L db req).status = 200 ∨ (Route.deletePost L db req).status = 500) := by
  obtain ⟨hAuth, hFind⟩ := h
  have hf : findPostById db ({ req with userId := some post.creator } : Req).postId = some post :=
    hFind
  cases hu : findUserById db (some post.creator) with
  | none =>
    simp [Route.deletePost, protect_of_authenticated hAuth, SocialBlog.deletePost, hf,
      findUserById_removePost, hu, clearedImages, Result.status, Result.response,
      errorBoundary, catchAsync, internalError]
  | some user =>
    simp [Route.deletePost, protect_of_authenticated hAuth, SocialBlog.deletePost, hf,
      findUserById_removePost, hu, clearedImages, Result.status, Result.response]

/-- The route `DELETE /feed/post/:postId` hands no image to `clearImage`
unless the request is the creator's deletion of a stored post. -/
theorem deletePost_not_cleared (L : Lib) (db : Db) (req : Req)
    (h : ¬ ∃ post, DeleteAccepted L db req post) :
    clearedImages (Route.deletePost L db req).effects = [] := by
  unfold Route.deletePost protect
  cases hA : isAuth L req with
  | error e => simp [clearedImages]
  | ok r =>
    obtain ⟨uid, hAuth, rfl⟩ := isAuth_ok_inv hA
    simp only []
    cases hFind : findPostById db req.postId with
    | none =>
      have hf : findPostById db ({ req with userId := some uid } : Req).postId = none := hFind
      simp [SocialBlog.deletePost, hf, clearedImages]
    | some post =>
      have hf : findPostById db ({ req with userId := some uid } : Req).postId = some post :=
        hFind
      by_cases hc : post.creator = uid
      · subst hc
        exact absurd ⟨post, hAuth, hFind⟩ h
      · simp [SocialBlog.deletePost, hf, hc, clearedImages]

/-- C7: over `updatePost` and `deletePost`, as routed, the stored image of a
post is handed to `clearImage` (once, and nothing else is) exactly when the
creator sends a valid update whose image reference differs from the stored
one, or the creator's deletion passes the not-found and authorization checks
(answered 200 whenever the creator is a stored user). In every other outcome
no image is cleared: in particular when the status is 422, 404 or 403, and
when the creator's update re-supplies the stored reference (answered 200). -/
theorem clearImage_exactly (L : Lib) (db : Db) (req : Req) :
    (∀ post, UpdateChangesImage L db req post →
      clearedImages (Route.updatePost L db req).effects = [post.imageUrl]) ∧
    ((¬ ∃ post, UpdateChangesImage L db req post) →
      clearedImages (Route.updatePost L db req).effects = []) ∧
    (∀ post, DeleteAccepted L db req post →
      clearedImages (Route.deletePost L db req).effects = [post.imageUrl] ∧
      ((findUserById db (some post.creator)).isSome →
        (Route.deletePost L db req).status = 200)) ∧
    ((¬ ∃ post, DeleteAccepted L db req post) →
      clearedImages (Route.deletePost L db req).effects = []) ∧
    ((Route.updatePost L db req).status ∈ [422, 404, 403] →
      clearedImages (Route.updatePost L db req).effects = []) ∧
    ((Route.deletePost L db req).status ∈ [422, 404, 403] →
      clearedImages (Route.deletePost L db req).effects = []) ∧
    (∀ post, Authenticated L req post.creator → FeedValid req →
      findPostById db req.postId = some post →
      resolveImageUrl req = some post.imageUrl →
      (Route.updatePost L db req).status = 200 ∧
      clearedImages (Route.updatePost L db req).effects = []) := by
  refine ⟨?_, updatePost_not_cleared L db req, ?_, deletePost_not_cleared L db req, ?_, ?_, ?_⟩
  · rintro post ⟨img, hAuth, hValid, hImg, hFind, hne⟩
    rw [updatePost_by_creator hAuth hValid hImg hFind]
    simp [hne, clearedImages]
  · intro post h
    exact ⟨(deletePost_by_creator h).1, (deletePost_by_creator h).2.1⟩
  · intro hs
    by_cases h : ∃ post, UpdateChangesImage L db req post
    · obtain ⟨post, img, hAuth, hValid, hImg, hFind, hne⟩ := h
      rw [updatePost_by_creator hAuth hValid hImg hFind] at hs
      simp [Result.status, Result.response] at hs
    · exact updatePost_not_cleared L db req h
  · intro hs
    by_cases h : ∃ post, DeleteAccepted L db req post
    · obtain ⟨post, h⟩ := h
      rcases (deletePost_by_creator h).2.2 with h2 | h2 <;> rw [h2] at hs <;> simp at hs
    · exact deletePost_not_cleared L db req h
  · intro post hAuth hValid hFind hImg
    rw [updatePost_by_creator hAuth hValid hImg hFind]
    simp [clearedImages, Result.status, Result.response]

/-- Witness of `clearImage_exactly`: the creator's update with a new image
reference clears the stored image, the update by another user (403) clears
nothing. -/
theorem clearImage_exactly_witness :
    clearedImages (Route.updatePost demoLib sampleDb updateByCreator).effects
      = ["images/cat.png"] ∧
    clearedImages (Route.deletePost demoLib sampleDb updateByCreator).effects
      = ["images/cat.png"] ∧
    (Route.deletePost demoLib sampleDb updateByCreator).status = 200 ∧
    clearedImages (Route.updatePost demoLib sampleDb updateByOther).effects = [] :=
  have hAuth : Authenticated demoLib updateByCreator helloPost.creator :=
    ⟨"Bearer token-of-0", "a@x.com", rfl, by decide, rfl⟩
  have h := clearImage_exactly demoLib sampleDb updateByCreator
  have hd := h.2.2.1 helloPost ⟨hAuth, by decide⟩
  ⟨h.1 helloPost ⟨"images/dog.png", hAuth, by decide, by decide, by decide, by decide⟩,
    hd.1, hd.2 (by decide),
    (clearImage_exactly demoLib sampleDb updateByOther).2.2.2.2.1 (by decide)⟩

/-- After replacing the first match of `p` by an element matching `p`, a search
for `p` finds that element. -/
theorem find?_replaceFirst {α : Type} (p : α → Bool) (new : α) (hnew : p new = true) :
    ∀ (l : List α) (x : α), l.find? p = some x → (replaceFirst p new l).find? p = some new := by
  intro l
  induction l with
  | nil => intro x h; simp at h
  | cons a l ih =>
    intro x h
    by_cases ha : p a = true
    · simp [replaceFirst, ha, hnew]
    · have ha1 : p a = false := by simpa using ha
      rw [List.find?_cons, ha1] at h
      simp only [replaceFirst, ha1]
      have := ih x h
      simp [List.find?_cons, ha1, this]

/-- A saved post is what a later `findById` of its id returns. -/
theorem findPostById_savePost {db : Db} {id : ObjectId} {post new : Post}
    (hFind : findPostById db id = some post) (hid : new._id = post._id) :
    findPostById (savePost db new) id = some new := by
  have hpid : post._id = id := by
    have := List.find?_some hFind
    simpa using this
  have h := find?_replaceFirst (fun (p : Post) => decide (p._id = id)) new
    (by simp [hid, hpid]) db.posts post hFind
  simpa [findPostById, savePost, hid, hpid] using h

/-- The path multer stores a file under is never rewritten to the empty text. -/
theorem replaceBackslash_path_ne_empty (file : File) : replaceBackslash file.path ≠ "" := by
  intro h
  have h1 : (replaceBackslash file.path).toList = [] := by rw [h]; rfl
  cases hs : file.style <;>
    simp [replaceBackslash, File.path, PathStyle.sep, hs, replaceBackslashChars] at h1

/-- The image reference `updatePost` resolves when a file is attached. -/
theorem resolveImageUrl_file {req : Req} {file : File} (h : req.file = some file) :
    resolveImageUrl req = some (replaceBackslash file.path) := by
  simp [resolveImageUrl, h, truthyText, replaceBackslash_path_ne_empty]

/-- C8 (counterexample): on a host with backslash paths the reference written
by an update with an uploaded file is not the storage path of the file. -/
theorem updatePost_file_path_rewritten :
    FeedValid updateWithFile ∧ updateWithFile.file = some winFile ∧
    winFile.path = "images\\7c9e6679" ∧
    (Route.updatePost demoLib sampleDb updateWithFile).status = 200 ∧
    (findPostById (Route.updatePost demoLib sampleDb updateWithFile).db 2).map Post.imageUrl
      = some "images/7c9e6679" ∧
    (findPostById (Route.updatePost demoLib sampleDb updateWithFile).db 2).map Post.imageUrl
      ≠ some winFile.path := by
  decide

/-- C8 (amended): for every authenticated update whose title and content are
valid: with no file and no non-empty `image` text the answer is 422, the
database is unchanged and no call (in particular no post lookup) is made;
with a file attached the reference resolved, and written to the creator's
stored post, is the storage path of the file with its first backslash, if
any, replaced by a forward slash, whatever the body `image`; otherwise it is
the body `image` text. -/
theorem updatePost_image_reference (L : Lib) (db : Db) (req : Req) (uid : ObjectId)
    (hAuth : Authenticated L req uid) (hValid : FeedValid req) :
    (req.file = none → (req.body.image = none ∨ req.body.image = some "") →
      (Route.updatePost L db req).status = 422 ∧ (Route.updatePost L db req).db = db ∧
      (Route.updatePost L db req).effects = []) ∧
    (∀ file, req.file = some file →
      resolveImageUrl req = some (replaceBackslash file.path) ∧
      ∀ post, findPostById db req.postId = some post → post.creator = uid →
        (Route.updatePost L db req).outcome
          = .ok ⟨200, .post (updatedPost req (replaceBackslash file.path) post)⟩ ∧
        findPostById (Route.updatePost L db req).db req.postId
          = some (updatedPost req (replaceBackslash file.path) post)) ∧
    (∀ s, req.file = none → req.body.image = some s → s ≠ "" →
      resolveImageUrl req = some s ∧
      ∀ post, findPostById db req.postId = some post → post.creator = uid →
        (Route.updatePost L db req).outcome = .ok ⟨200, .post (updatedPost req s post)⟩ ∧
        findPostById (Route.updatePost L db req).db req.postId
          = some (updatedPost req s post)) := by
  refine ⟨?_, ?_, ?_⟩
  · intro hFile hBody
    have hImg : resolveImageUrl (feedValidators { req with userId := some uid }) = none := by
      rw [resolveImageUrl_feedValidators]
      rcases hBody with hb | hb <;> simp [resolveImageUrl, hFile, hb, truthyText]
    have hv : (feedValidators { req with userId := some uid }).validationErrors = [] :=
      @feedValidators_errors { req with userId := some uid } hValid
    simp [Route.updatePost, protect_of_authenticated hAuth, SocialBlog.updatePost, hv, hImg,
      Result.status, Result.response, errorBoundary]
  · intro file hFile
    refine ⟨resolveImageUrl_file hFile, ?_⟩
    intro post hFind hc
    subst hc
    rw [updatePost_by_creator hAuth hValid (resolveImageUrl_file hFile) hFind]
    exact ⟨rfl, findPostById_savePost hFind rfl⟩
  · intro s hFile hBody hs
    have hImg : resolveImageUrl req = some s := by
      simp [resolveImageUrl, hFile, hBody, truthyText, hs]
    refine ⟨hImg, ?_⟩
    intro post hFind hc
    subst hc
    rw [updatePost_by_creator hAuth hValid hImg hFind]
    exact ⟨rfl, findPostById_savePost hFind rfl⟩

/-- Witness of `updatePost_image_reference`: the creator's update with an
uploaded file, and the creator's update with no image at all. -/
theorem updatePost_image_reference_witness :
    findPostById (Route.updatePost demoLib sampleDb updateWithFile).db updateWithFile.postId
      = some (updatedPost updateWithFile (replaceBackslash winFile.path) helloPost) ∧
    (Route.updatePost demoLib sampleDb updateWithoutImage).status = 422 :=
  have hAuth : Authenticated demoLib updateWithFile 0 :=
    ⟨"Bearer token-of-0", "a@x.com", rfl, by decide, rfl⟩
  have hAuth2 : Authenticated demoLib updateWithoutImage 0 :=
    ⟨"Bearer token-of-0", "a@x.com", rfl, by decide, rfl⟩
  ⟨(((updatePost_image_reference demoLib sampleDb updateWithFile 0 hAuth (by decide)).2.1
      winFile rfl).2 helloPost (by decide) rfl).2,
    ((updatePost_image_reference demoLib sampleDb updateWithoutImage 0 hAuth2 (by decide)).1
      rfl (Or.inl rfl)).1⟩

/-- The `required` check returns the text it was given, if any. -/
theorem requiredString_some {s t : String} (h : requiredString (some s) = some t) : t = s := by
  unfold requiredString at h
  by_cases hs : s = ""
  · simp [hs] at h
  · simp [hs] at h; exact h.symm

/-- A signup whose validation result is empty found no user with the
normalized email. -/
theorem signupValidators_ok_email {L : Lib} {db : Db} {req : Req}
    (h : (signupValidators L db req).validationErrors = []) :
    findUserByEmail db (some (L.normalizeEmail (fieldText req.body.email))) = none := by
  cases hf : findUserByEmail db (some (L.normalizeEmail (fieldText req.body.email))) with
  | none => rfl
  | some u => simp [signupValidators, hf] at h

/-- The route `PUT /auth/signup` either leaves the database as it was or
stores one new user, whose email no stored user had. -/
theorem signup_db (L : Lib) (db : Db) (req : Req) :
    (Route.signup L db req).db = db ∨
    ∃ user, (Route.signup L db req).db = insertUser db user ∧ user._id = db.nextId ∧
      user.posts = [] ∧ user.email = L.normalizeEmail (fieldText req.body.email) ∧
      findUserByEmail db (some user.email) = none := by
  unfold Route.signup SocialBlog.signup
  cases hv : (signupValidators L db req).validationErrors with
  | cons a l => left; simp
  | nil =>
    have hp : (signupValidators L db req).body.password
        = some (jsTrim (fieldText req.body.password)) := rfl
    have he : (signupValidators L db req).body.email
        = some (L.normalizeEmail (fieldText req.body.email)) := rfl
    simp only [hp, he, List.isEmpty_nil, Bool.not_true, Bool.false_eq_true, if_false]
    cases h1 : requiredString (some (L.normalizeEmail (fieldText req.body.email))) with
    | none => left; rfl
    | some e =>
      cases h2 : requiredString
          (some (L.bcryptHash (jsTrim (fieldText req.body.password)) 12)) with
      | none => left; rfl
      | some pw =>
        right
        have hee := requiredString_some h1
        subst hee
        exact ⟨_, rfl, rfl, rfl, rfl, signupValidators_ok_email hv⟩

/-- One signup keeps the stored emails pairwise distinct. -/
theorem signup_emails_nodup (L : Lib) (db : Db) (req : Req) (h : db.emails.Nodup) :
    (Route.signup L db req).db.emails.Nodup := by
  rcases signup_db L db req with hdb | ⟨user, hdb, -, -, -, hnone⟩
  · rw [hdb]; exact h
  · rw [hdb]
    have hnot : user.email ∉ db.emails := by
      intro hmem
      obtain ⟨u, hu, hue⟩ := List.mem_map.mp hmem
      have := List.find?_eq_none.mp hnone u hu
      simp [hue] at this
    unfold Db.emails insertUser
    simp only [List.map_append, List.map_cons, List.map_nil]
    refine List.Nodup.append h (List.nodup_singleton _) ?_
    intro x hx hx1
    rw [List.mem_singleton] at hx1
    exact hnot (hx1 ▸ hx)

/-- C9 (counterexample): two signups with one email whose validators both run
before either user is saved are both answered 201 and leave two stored users
with the same email. -/
theorem signup_overlapping_duplicate_email :
    (signupOverlapped demoLib Db.empty Db.empty signupAnn).status = 201 ∧
    (signupOverlapped demoLib Db.empty
      (signupOverlapped demoLib Db.empty Db.empty signupAnn).db signupAnnAgain).status = 201 ∧
    (signupOverlapped demoLib Db.empty
      (signupOverlapped demoLib Db.empty Db.empty signupAnn).db signupAnnAgain).db.emails
      = ["a@x.com", "a@x.com"] ∧
    ¬ (signupOverlapped demoLib Db.empty
      (signupOverlapped demoLib Db.empty Db.empty signupAnn).db signupAnnAgain).db.emails.Nodup := by
  decide

/-- C9 (amended): a signup whose normalized email is the email of a user that
is stored when the validator looks it up fails with status 422 (thrown with
`statusCode` 422) and leaves the database, whatever it has become, as it is;
hence no sequence of signup requests handled in turn, each validated and
saved before the next one is validated, run from the empty database or from
any database with pairwise distinct emails, leaves two stored users with the
same email. -/
theorem signup_email_unique (L : Lib) :
    (∀ (seen db : Db) (req : Req) (u : User), u ∈ seen.users →
      u.email = L.normalizeEmail (fieldText req.body.email) →
      (signupOverlapped L seen db req).status = 422 ∧
      (signupOverlapped L seen db req).db = db ∧
      ∃ e, (signupOverlapped L seen db req).outcome = .error e ∧ e.statusCode = some 422) ∧
    (∀ (db : Db) (req : Req), Route.signup L db req = signupOverlapped L db db req) ∧
    (∀ (db : Db) (reqs : List Req), db.emails.Nodup → (signupsInTurn L db reqs).emails.Nodup) ∧
    (∀ reqs : List Req, (signupsInTurn L Db.empty reqs).emails.Nodup) := by
  have hrun : ∀ (reqs : List Req) (db : Db), db.emails.Nodup →
      (signupsInTurn L db reqs).emails.Nodup := by
    intro reqs
    induction reqs with
    | nil => intro db h; exact h
    | cons r rs ih =>
      intro db h
      exact ih _ (signup_emails_nodup L db r h)
  refine ⟨?_, fun _ _ => rfl, fun db reqs h => hrun reqs db h,
    fun reqs => hrun reqs Db.empty List.nodup_nil⟩
  intro seen db req u hu hue
  have hfind : ∃ v, findUserByEmail seen (some (L.normalizeEmail (fieldText req.body.email)))
      = some v := by
    cases hf : findUserByEmail seen (some (L.normalizeEmail (fieldText req.body.email))) with
    | some v => exact ⟨v, rfl⟩
    | none =>
      have := List.find?_eq_none.mp hf u hu
      simp [hue] at this
  obtain ⟨v, hv⟩ := hfind
  have hne : (signupValidators L seen req).validationErrors.isEmpty = false := by
    simp [signupValidators, hv]
  simp [signupOverlapped, SocialBlog.signup, hne, Result.status, Result.response,
    errorBoundary]

/-- Witness of `signup_email_unique`: after Ann has signed up, a second signup
with her email is refused and stores nothing. -/
theorem signup_email_unique_witness :
    (signupOverlapped demoLib sampleDb sampleDb signupAnnAgain).status = 422 ∧
    (signupOverlapped demoLib sampleDb sampleDb signupAnnAgain).db = sampleDb ∧
    (signupsInTurn demoLib sampleDb [signupAnnAgain, signupAnn]).emails.Nodup :=
  have h := (signup_email_unique demoLib).1 sampleDb sampleDb signupAnnAgain ann (by decide) rfl
  ⟨h.1, h.2.1, (signup_email_unique demoLib).2.2.1 sampleDb [signupAnnAgain, signupAnn]
    (by decide)⟩

/-- The controller `login` on an email that finds no user. -/
theorem login_unknown_email {L : Lib} {db : Db} {req : Req}
    (h : findUserByEmail db req.body.email = none) :
    (login L db req).status = 401 ∧ ¬ TokenIssued (login L db req) := by
  simp [login, h, TokenIssued, Result.status, Result.response, errorBoundary, catchAsync]

/-- The controller `login` on a password the comparison rejects. -/
theorem login_wrong_password {L : Lib} {db : Db} {req : Req} {u : User} {pw : String}
    (hu : findUserByEmail db req.body.email = some u) (hp : req.body.password = some pw)
    (hc : L.bcryptCompare pw u.password = false) :
    (login L db req).status = 401 ∧ ¬ TokenIssued (login L db req) := by
  simp [login, hu, hp, hc, TokenIssued, Result.status, Result.response, errorBoundary,
    catchAsync]

/-- The controller `login` issues a token only for a stored user whose
password comparison succeeds; the answer is then 200 with that user's id. -/
theorem login_token_inv {L : Lib} {db : Db} {req : Req} (h : TokenIssued (login L db req)) :
    ∃ u pw, findUserByEmail db req.body.email = some u ∧ req.body.password = some pw ∧
      L.bcryptCompare pw u.password = true ∧
      (login L db req).outcome
        = .ok ⟨200, .token (L.jwtSign ⟨u.email, u._id⟩ secret 3600 req.now) u._id⟩ := by
  cases hu : findUserByEmail db req.body.email with
  | none => exact absurd h (login_unknown_email hu).2
  | some u =>
    cases hp : req.body.password with
    | none =>
      simp [login, hu, hp, TokenIssued, Result.response, errorBoundary, catchAsync,
        internalError] at h
    | some pw =>
      cases hc : L.bcryptCompare pw u.password with
      | false => exact absurd h (login_wrong_password hu hp hc).2
      | true => exact ⟨u, pw, rfl, rfl, hc, by simp [login, hu, hp, hc]⟩

/-- No stored user has the email: the lookup of `login` finds nothing. -/
theorem findUserByEmail_none_of_forall {db : Db} {email : Option String}
    (h : ∀ u ∈ db.users, some u.email ≠ email) : findUserByEmail db email = none := by
  cases email with
  | none => rfl
  | some e =>
    unfold findUserByEmail
    simp only []
    rw [List.find?_eq_none]
    intro u hu
    have := h u hu
    simpa using this

/-- Login requests that carry a password text, as the controller receives
them and as routed (the route normalizes the email first): if no stored user
has the given email, or the password text does not match the stored hash of
the user found by that email, the answer is 401 and no token is issued
(`jwt.sign` is not called, the response carries no token); for every login
request a token is issued only when the email finds a stored user and the
password comparison succeeds. -/
theorem login_token_only_for_valid_credentials (L : Lib) (db : Db) (req : Req) :
    ((∀ u ∈ db.users, some u.email ≠ req.body.email) →
      (login L db req).status = 401 ∧ ¬ TokenIssued (login L db req)) ∧
    (∀ u pw, findUserByEmail db req.body.email = some u → req.body.password = some pw →
      L.bcryptCompare pw u.password = false →
      (login L db req).status = 401 ∧ ¬ TokenIssued (login L db req)) ∧
    (TokenIssued (login L db req) →
      ∃ u pw, u ∈ db.users ∧ some u.email = req.body.email ∧
        findUserByEmail db req.body.email = some u ∧ req.body.password = some pw ∧
        L.bcryptCompare pw u.password = true) ∧
    ((∀ u ∈ db.users, u.email ≠ L.normalizeEmail (fieldText req.body.email)) →
      (Route.login L db req).status = 401 ∧ ¬ TokenIssued (Route.login L db req)) ∧
    (∀ u pw, findUserByEmail db (some (L.normalizeEmail (fieldText req.body.email))) = some u →
      req.body.password = some pw → L.bcryptCompare pw u.password = false →
      (Route.login L db req).status = 401 ∧ ¬ TokenIssued (Route.login L db req)) ∧
    (TokenIssued (Route.login L db req) →
      ∃ u pw, u ∈ db.users ∧ u.email = L.normalizeEmail (fieldText req.body.email) ∧
        req.body.password = some pw ∧ L.bcryptCompare pw u.password = true) := by
  have key : ∀ r : Req, TokenIssued (login L db r) →
      ∃ u pw, u ∈ db.users ∧ some u.email = r.body.email ∧
        findUserByEmail db r.body.email = some u ∧ r.body.password = some pw ∧
        L.bcryptCompare pw u.password = true := by
    intro r h
    obtain ⟨u, pw, hu, hp, hc, -⟩ := login_token_inv h
    refine ⟨u, pw, ?_, ?_, hu, hp, hc⟩
    · cases he : r.body.email with
      | none => simp [findUserByEmail, he] at hu
      | some e =>
        simp only [findUserByEmail, he] at hu
        exact List.mem_of_find?_eq_some hu
    · cases he : r.body.email with
      | none => simp [findUserByEmail, he] at hu
      | some e =>
        simp only [findUserByEmail, he] at hu
        have := List.find?_some hu
        simpa using this
  refine ⟨fun h => login_unknown_email (findUserByEmail_none_of_forall h),
    fun u pw hu hp hc => login_wrong_password hu hp hc, key req, ?_, ?_, ?_⟩
  · intro h
    refine @login_unknown_email L db (loginValidators L req)
      (findUserByEmail_none_of_forall ?_)
    intro u hu
    have := h u hu
    simpa [loginValidators] using this
  · intro u pw hu hp hc
    exact @login_wrong_password L db (loginValidators L req) u pw hu hp hc
  · intro h
    obtain ⟨u, pw, hmem, he, -, hp, hc⟩ := key (loginValidators L req) h
    refine ⟨u, pw, hmem, ?_, hp, hc⟩
    simpa [loginValidators] using he

/-- Witness of `login_token_only_for_valid_credentials`: an unknown email and
a wrong password are both answered 401 without a token. -/
theorem login_token_only_for_valid_credentials_witness :
    ((login demoLib sampleDb loginUnknownEmail).status = 401 ∧
      ¬ TokenIssued (login demoLib sampleDb loginUnknownEmail)) ∧
    ((login demoLib sampleDb loginWrongPassword).status = 401 ∧
      ¬ TokenIssued (login demoLib sampleDb loginWrongPassword)) :=
  ⟨(login_token_only_for_valid_credentials demoLib sampleDb loginUnknownEmail).1 (by decide),
    (login_token_only_for_valid_credentials demoLib sampleDb loginWrongPassword).2.1 ann
      "secret2" (by decide) rfl (by decide)⟩

/-- The controller `login` on a request without a password field, for a stored
email: bcryptjs rejects the arguments, the answer is 500 and no token is
issued. -/
theorem login_missing_password {L : Lib} {db : Db} {req : Req} {u : User}
    (hu : findUserByEmail db req.body.email = some u) (hp : req.body.password = none) :
    (login L db req).status = 500 ∧ ¬ TokenIssued (login L db req) := by
  simp [login, hu, hp, TokenIssued, Result.status, Result.response, errorBoundary,
    catchAsync, internalError]

/-- C10 (evaluation at the failing input): a login with a stored email and no
password field does not match the stored hash, yet it is answered 500, not
401: `bcrypt.compare` rejects its arguments instead of resolving to `false`.
No token is issued. -/
theorem login_without_password_status :
    findUserByEmail sampleDb (some "a@x.com") = some ann ∧
    loginNoPassword.body.password = none ∧
    (Route.login demoLib sampleDb loginNoPassword).status = 500 ∧
    (Route.login demoLib sampleDb loginNoPassword).status ≠ 401 ∧
    (Route.login demoLib sampleDb loginNoPassword).response.body
      = .error (some "Illegal arguments: undefined, string") [] ∧
    Effect.jwtSign ∉ (Route.login demoLib sampleDb loginNoPassword).effects := by
  decide

/-- C15: for every uploaded file, `fileFilter` keeps the file if and only if
its content type is exactly `image/png`, `image/jpeg` or `image/jpg`; it
never signals an error, and a file that is not kept leaves `req.file`
unset for the handlers. -/
theorem fileFilter_accepts_iff (file : File) :
    ((fileFilter file).2 = true ↔
      (file.mimetype = "image/png" ∨ file.mimetype = "image/jpeg" ∨
        file.mimetype = "image/jpg")) ∧
    (fileFilter file).1 = none ∧
    multerSingle (some file) =
      .ok (if file.mimetype = "image/png" ∨ file.mimetype = "image/jpeg" ∨
        file.mimetype = "image/jpg" then some file else none) := by
  by_cases h : file.mimetype = "image/png" ∨ file.mimetype = "image/jpeg" ∨
      file.mimetype = "image/jpg"
  · simp [fileFilter, multerSingle, h]
  · simp [fileFilter, multerSingle, h]

/-- Witness of `fileFilter_accepts_iff`: a PNG is kept, a GIF is dropped
without an error. -/
theorem fileFilter_accepts_iff_witness :
    (fileFilter winFile).2 = true ∧ multerSingle (some gifFile) = .ok none :=
  ⟨(fileFilter_accepts_iff winFile).1.mpr (by decide),
    (fileFilter_accepts_iff gifFile).2.2⟩

/-- Cutting `a ++ sep :: b` where `a` has no separator gives `a` and then the
segments of `b`. -/
theorem splitChars_append (sep : Char) (a b : List Char) (ha : sep ∉ a) :
    splitChars sep (a ++ sep :: b) = a :: splitChars sep b := by
  induction a with
  | nil => simp [splitChars]
  | cons c cs ih =>
    have hc : c ≠ sep := fun h => ha (by simp [h])
    have hcs : sep ∉ cs := fun h => ha (by simp [h])
    simp [splitChars, hc, ih hcs]

/-- A text without the separator is its own single segment. -/
theorem splitChars_single (sep : Char) (a : List Char) (ha : sep ∉ a) :
    splitChars sep a = [a] := by
  induction a with
  | nil => simp [splitChars]
  | cons c cs ih =>
    have hc : c ≠ sep := fun h => ha (by simp [h])
    have hcs : sep ∉ cs := fun h => ha (by simp [h])
    simp [splitChars, hc, ih hcs]

/-- The second segment of `scheme token` is `token`, whatever the scheme. -/
theorem jsSplitSpace_second (scheme token : String) (hs : ' ' ∉ scheme.toList)
    (ht : ' ' ∉ token.toList) : (jsSplitSpace (scheme ++ " " ++ token))[1]? = some token := by
  have h : (scheme ++ " " ++ token).toList = scheme.toList ++ ' ' :: token.toList := by
    simp [String.toList]
  unfold jsSplitSpace
  rw [h, splitChars_append _ _ _ hs, splitChars_single _ _ ht]
  simp

/-- C14: the decision of `is-auth` for every request. Without an Authorization
header (an empty value counts as none) it throws 401 and a protected route
answers 401 without running its handler. With a header, the outcome depends
on the verifier only through its verdict on the second segment of the header
value split on spaces, whatever the first segment is (for `scheme token` that
segment is `token`). When that verification succeeds, `userId` is set to the
id embedded in the token and the handler runs on that request. -/
theorem isAuth_decision (L : Lib) (handler : Db → Req → Result) (db : Db) (req : Req) :
    ((req.authorization = none ∨ req.authorization = some "") →
      isAuth L req = .error ⟨some 401, some "Not authenticated", []⟩ ∧
      protect L handler db req = ⟨db, [], .error ⟨some 401, some "Not authenticated", []⟩⟩ ∧
      (protect L handler db req).status = 401) ∧
    (∀ authValue, req.authorization = some authValue →
      ∀ L1 : Lib,
        L1.jwtVerify ((jsSplitSpace authValue)[1]?) secret req.now
          = L.jwtVerify ((jsSplitSpace authValue)[1]?) secret req.now →
        isAuth L1 req = isAuth L req) ∧
    (∀ scheme token : String, ' ' ∉ scheme.toList → ' ' ∉ token.toList →
      (jsSplitSpace (scheme ++ " " ++ token))[1]? = some token) ∧
    (∀ authValue decodedToken, req.authorization = some authValue → authValue ≠ "" →
      L.jwtVerify ((jsSplitSpace authValue)[1]?) secret req.now = .ok (some decodedToken) →
      isAuth L req = .ok { req with userId := some decodedToken.userId } ∧
      protect L handler db req = handler db { req with userId := some decodedToken.userId }) := by
  refine ⟨?_, ?_, jsSplitSpace_second, ?_⟩
  · intro h
    have hA : isAuth L req = .error ⟨some 401, some "Not authenticated", []⟩ := by
      rcases h with h | h <;> simp [isAuth, h]
    refine ⟨hA, ?_, ?_⟩
    · simp [protect, hA]
    · simp [protect, hA, Result.status, Result.response, errorBoundary]
  · intro authValue h L1 hv
    simp only [isAuth, h, hv]
  · intro authValue decodedToken h hne hv
    have hA : isAuth L req = .ok { req with userId := some decodedToken.userId } := by
      simp [isAuth, h, hne, hv]
    exact ⟨hA, by simp [protect, hA]⟩

/-- Witness of `isAuth_decision`: a request without header is answered 401,
and a token sent under another scheme name is verified all the same. -/
theorem isAuth_decision_witness :
    (protect demoLib SocialBlog.getPosts sampleDb {}).status = 401 ∧
    isAuth demoLib otherScheme = .ok { otherScheme with userId := some 1 } :=
  ⟨((isAuth_decision demoLib SocialBlog.getPosts sampleDb {}).1 (Or.inl rfl)).2.2,
    ((isAuth_decision demoLib SocialBlog.getPosts sampleDb otherScheme).2.2.2
      "Token token-of-1" ⟨"b@x.com", 1⟩ rfl (by decide) rfl).1⟩

/-- Replacing the first match of `p` by an element with the same image under
`f` as the match leaves the images under `f` as they were. -/
theorem map_replaceFirst {α β : Type} (f : α → β) (p : α → Bool) (new : α) :
    ∀ (l : List α) (x : α), l.find? p = some x → f new = f x →
      (replaceFirst p new l).map f = l.map f := by
  intro l
  induction l with
  | nil => intro x h; simp at h
  | cons a l ih =>
    intro x h hf
    by_cases ha : p a = true
    · rw [List.find?_cons, ha] at h
      injection h with h
      subst h
      simp [replaceFirst, ha, hf]
    · have ha1 : p a = false := by simpa using ha
      rw [List.find?_cons, ha1] at h
      simp [replaceFirst, ha1, ih x h hf]

/-- The controller `updatePost` leaves the identifier and creator of every
stored post as they were. -/
theorem updatePost_keys (db : Db) (req : Req) :
    (SocialBlog.updatePost db req).db.posts.map Post.key = db.posts.map Post.key ∧
    (SocialBlog.updatePost db req).db.users = db.users ∧
    (SocialBlog.updatePost db req).db.nextId = db.nextId := by
  unfold SocialBlog.updatePost
  by_cases hv : req.validationErrors.isEmpty = true
  · simp only [hv, Bool.not_true, Bool.false_eq_true, if_false]
    cases hImg : resolveImageUrl req with
    | none => simp
    | some img =>
      cases hFind : findPostById db req.postId with
      | none => simp
      | some post =>
        by_cases hc : some post.creator ≠ req.userId
        · simp [hc]
        · simp only [hc, if_false]
          cases ht : requiredString req.body.title with
          | none => simp
          | some t =>
            cases hcn : requiredString req.body.content with
            | none => simp
            | some c =>
              refine ⟨?_, rfl, rfl⟩
              have hpid : post._id = req.postId := by
                have := List.find?_some hFind
                simpa using this
              have hFind1 : db.posts.find? (fun p => decide (p._id = post._id)) = some post := by
                rw [hpid]; exact hFind
              exact map_replaceFirst Post.key _ _ db.posts post hFind1 rfl
  · have hv1 : req.validationErrors.isEmpty = false := by simpa using hv
    simp [hv1]

/-- The route `PUT /feed/post/:postId` leaves the identifier and creator of
every stored post as they were. -/
theorem routeUpdatePost_keys (L : Lib) (db : Db) (req : Req) :
    (Route.updatePost L db req).db.posts.map Post.key = db.posts.map Post.key ∧
    (Route.updatePost L db req).db.users = db.users ∧
    (Route.updatePost L db req).db.nextId = db.nextId := by
  unfold Route.updatePost protect
  cases hA : isAuth L req with
  | error e => simp
  | ok r => exact SocialBlog.updatePost_keys db (feedValidators r)

/-- Two post lists with the same identifiers and creators answer a lookup by
identifier with posts of the same creator. -/
theorem find?_creator_of_keys (id : ObjectId) :
    ∀ (l l1 : List Post), l1.map Post.key = l.map Post.key →
      ∀ post, l.find? (fun p => p._id = id) = some post →
        ∃ post1, l1.find? (fun p => p._id = id) = some post1 ∧ post1._id = post._id ∧
          post1.creator = post.creator := by
  intro l
  induction l with
  | nil => intro l1 _ post h; simp at h
  | cons a l ih =>
    intro l1 hk post h
    cases l1 with
    | nil => simp at hk
    | cons b l1 =>
      simp only [List.map_cons, List.cons.injEq] at hk
      obtain ⟨hb, hk⟩ := hk
      have hid : b._id = a._id := congrArg Prod.fst hb
      have hcr : b.creator = a.creator := congrArg Prod.snd hb
      by_cases ha : a._id = id
      · have : post = a := by
          rw [List.find?_cons] at h
          simp [ha] at h
          exact h.symm
        subst this
        exact ⟨b, by simp [List.find?_cons, hid, ha], hid, hcr⟩
      · have h1 : l.find? (fun p => p._id = id) = some post := by
          rw [List.find?_cons] at h
          simpa [ha] using h
        obtain ⟨post1, hp1, h2⟩ := ih l1 hk post h1
        exact ⟨post1, by simp [List.find?_cons, hid, ha, hp1], h2⟩

/-- Storing a post leaves the users as they were. -/
theorem findUserById_insertPost (db : Db) (post : Post) (uid : Option ObjectId) :
    findUserById (insertPost db post) uid = findUserById db uid := by
  cases uid <;> rfl

/-- The route `POST /feed/post` on an authenticated request with valid title
and content and an attached file: the post is stored, then the caller is
looked up; a caller that is not stored ends the request with 500. -/
theorem postPost_authenticated {L : Lib} {db : Db} {req : Req} {uid : ObjectId} {file : File}
    (hAuth : Authenticated L req uid) (hValid : FeedValid req) (hFile : req.file = some file) :
    Route.postPost L db req =
      match findUserById db (some uid) with
      | none =>
        ⟨insertPost db (createdPost db req file uid),
          [.savePost db.nextId, .findUser (some uid)],
          .error (catchAsync (internalError "Cannot read property of null"))⟩
      | some user =>
        ⟨saveUser (insertPost db (createdPost db req file uid))
            { user with posts := user.posts ++ [db.nextId] },
          [.savePost db.nextId, .findUser (some uid), .saveUser user._id],
          .ok ⟨201, .created (createdPost db req file uid) user._id user.name⟩⟩ := by
  have hv : (feedValidators { req with userId := some uid }).validationErrors = [] :=
    @feedValidators_errors { req with userId := some uid } hValid
  have hf : (feedValidators { req with userId := some uid }).file = some file := hFile
  have ht : requiredString (feedValidators { req with userId := some uid }).body.title
      = some (jsTrim (fieldText req.body.title)) := requiredString_of_length hValid.1
  have hc : requiredString (feedValidators { req with userId := some uid }).body.content
      = some (jsTrim (fieldText req.body.content)) := requiredString_of_length hValid.2
  have hi : requiredString (some (replaceBackslash file.path))
      = some (replaceBackslash file.path) := by
    simp [requiredString, replaceBackslash_path_ne_empty]
  have hu : (feedValidators { req with userId := some uid }).userId = some uid := rfl
  simp only [Route.postPost, protect_of_authenticated hAuth, SocialBlog.postPost, hv, hf, ht,
    hc, hi, hu, findUserById_insertPost, createdPost]
  cases findUserById db (some uid) <;> simp

/-- The database after the route `POST /feed/post`: unchanged, or one post
stored for the authenticated caller and, when the caller is a stored user,
its id appended to the caller's posts. -/
theorem postPost_db (L : Lib) (db : Db) (req : Req) :
    (Route.postPost L db req).db = db ∨
    ∃ uid file, Authenticated L req uid ∧ FeedValid req ∧ req.file = some file ∧
      ((findUserById db (some uid) = none ∧
          (Route.postPost L db req).db = insertPost db (createdPost db req file uid)) ∨
        ∃ user, findUserById db (some uid) = some user ∧
          (Route.postPost L db req).db =
            saveUser (insertPost db (createdPost db req file uid))
              { user with posts := user.posts ++ [db.nextId] }) := by
  cases hA : isAuth L req with
  | error e => left; simp [Route.postPost, protect, hA]
  | ok r =>
    obtain ⟨uid, hAuth, rfl⟩ := isAuth_ok_inv hA
    by_cases hValid : FeedValid req
    · cases hFile : req.file with
      | none =>
        left
        have hv : (feedValidators { req with userId := some uid }).validationErrors = [] :=
          @feedValidators_errors { req with userId := some uid } hValid
        have hf : (feedValidators { req with userId := some uid }).file = none := hFile
        simp [Route.postPost, protect, hA, SocialBlog.postPost, hv, hf]
      | some file =>
        right
        refine ⟨uid, file, hAuth, hValid, rfl, ?_⟩
        rw [postPost_authenticated hAuth hValid hFile]
        cases hu : findUserById db (some uid) with
        | none => left; exact ⟨rfl, rfl⟩
        | some user => right; exact ⟨user, rfl, rfl⟩
    · left
      have hv : (feedValidators { req with userId := some uid }).validationErrors ≠ [] := by
        intro hv
        exact hValid ((feedValidators_errors_iff { req with userId := some uid }).mp hv)
      have hv1 : (feedValidators { req with userId := some uid }).validationErrors.isEmpty
          = false := by
        cases hl : (feedValidators { req with userId := some uid }).validationErrors with
        | nil => exact absurd hl hv
        | cons a l => rfl
      simp [Route.postPost, protect, hA, SocialBlog.postPost, hv1]

/-- C13: the creator of a post is set by `postPost` to the authenticated
caller (every post stored by a create request of caller `uid` that was not
stored before has creator `uid`), and no `updatePost` request, by any caller,
with any body, accepted or not, changes it: the stored posts keep their
identifiers and creators, so a lookup of any stored post after the request
finds a post with the same creator. -/
theorem creator_immutable (L : Lib) (db : Db) (req : Req) :
    (∀ uid, Authenticated L req uid → ∀ p ∈ (Route.postPost L db req).db.posts,
      p ∈ db.posts ∨ p.creator = uid) ∧
    (Route.updatePost L db req).db.posts.map Post.key = db.posts.map Post.key ∧
    (∀ id post, findPostById db id = some post →
      ∃ post1, findPostById (Route.updatePost L db req).db id = some post1 ∧
        post1.creator = post.creator) ∧
    (∀ id post, findPostById db id = some post →
      ∃ post1, findPostById (SocialBlog.updatePost db req).db id = some post1 ∧
        post1.creator = post.creator) := by
  refine ⟨?_, (routeUpdatePost_keys L db req).1, ?_, ?_⟩
  · intro uid hAuth p hp
    rcases postPost_db L db req with h | ⟨uid1, file, hAuth1, -, -, h⟩
    · rw [h] at hp; exact Or.inl hp
    · have huid : uid1 = uid := Authenticated.unique hAuth1 hAuth
      subst huid
      have hposts : (Route.postPost L db req).db.posts
          = db.posts ++ [createdPost db req file uid1] := by
        rcases h with ⟨-, h⟩ | ⟨user, -, h⟩ <;> rw [h] <;> rfl
      rw [hposts] at hp
      rcases List.mem_append.mp hp with hp | hp
      · exact Or.inl hp
      · right
        rw [List.mem_singleton] at hp
        rw [hp]; rfl
  · intro id post h
    obtain ⟨post1, h1, -, h2⟩ :=
      find?_creator_of_keys id db.posts _ (routeUpdatePost_keys L db req).1 post h
    exact ⟨post1, h1, h2⟩
  · intro id post h
    obtain ⟨post1, h1, -, h2⟩ :=
      find?_creator_of_keys id db.posts _ (updatePost_keys db req).1 post h
    exact ⟨post1, h1, h2⟩

/-- Witness of `creator_immutable`: after the creator's update the post is
still found with creator 0. -/
theorem creator_immutable_witness :
    ∃ post1, findPostById (Route.updatePost demoLib sampleDb updateByCreator).db 2 = some post1 ∧
      post1.creator = helloPost.creator :=
  (creator_immutable demoLib sampleDb updateByCreator).2.2.1 2 helloPost (by decide)

/-- A search for `q` is not affected by replacing the first match of `p`, when
neither the matches of `p` nor the replacement satisfy `q`. -/
theorem find?_replaceFirst_other {α : Type} (p q : α → Bool) (new : α)
    (hpq : ∀ x, p x = true → q x = false) (hnew : q new = false) :
    ∀ l : List α, (replaceFirst p new l).find? q = l.find? q := by
  intro l
  induction l with
  | nil => rfl
  | cons a l ih =>
    by_cases ha : p a = true
    · simp [replaceFirst, ha, List.find?_cons, hnew, hpq a ha]
    · have ha1 : p a = false := by simpa using ha
      simp [replaceFirst, ha1, List.find?_cons, ih]

/-- A search for `q` is not affected by erasing the first match of `p`, when
no match of `p` satisfies `q`. -/
theorem find?_eraseP_other {α : Type} (p q : α → Bool)
    (hpq : ∀ x, p x = true → q x = false) :
    ∀ l : List α, (l.eraseP p).find? q = l.find? q := by
  intro l
  induction l with
  | nil => rfl
  | cons a l ih =>
    by_cases ha : p a = true
    · simp [List.eraseP_cons, ha, List.find?_cons, hpq a ha]
    · have ha1 : p a = false := by simpa using ha
      simp [List.eraseP_cons, ha1, List.find?_cons, ih]

/-- With pairwise distinct identifiers, erasing the first post of an
identifier erases all of them. -/
theorem eraseP_eq_filter (id : ObjectId) :
    ∀ l : List Post, (l.map Post._id).Nodup →
      l.eraseP (fun p => p._id = id) = l.filter (fun p => p._id ≠ id) := by
  intro l
  induction l with
  | nil => intro _; rfl
  | cons a l ih =>
    intro h
    rw [List.map_cons, List.nodup_cons] at h
    by_cases ha : a._id = id
    · have hl : l.filter (fun p => decide (p._id ≠ id)) = l := by
        rw [List.filter_eq_self]
        intro x hx
        have : x._id ≠ a._id := fun hxa => h.1 (hxa ▸ List.mem_map_of_mem Post._id hx)
        simpa [← ha] using this
      simp only [List.eraseP_cons, ha, decide_True, cond_true]
      simpa [List.filter_cons, ha] using hl.symm
    · simp [List.eraseP_cons, ha, ih h.2]

/-- A saved user is what a later `findById` of its id returns. -/
theorem findUserById_saveUser {db : Db} {uid : ObjectId} {user new : User}
    (hFind : findUserById db (some uid) = some user) (hid : new._id = user._id) :
    findUserById (saveUser db new) (some uid) = some new := by
  have huid : user._id = uid := by
    have := List.find?_some hFind
    simpa using this
  have h := find?_replaceFirst (fun (u : User) => decide (u._id = uid)) new
    (by simp [hid, huid]) db.users user hFind
  simpa [findUserById, saveUser, hid, huid] using h

/-- Saving a user leaves the lookup of every other user as it was. -/
theorem findUserById_saveUser_other (db : Db) (new : User) (v : ObjectId) (hv : v ≠ new._id) :
    findUserById (saveUser db new) (some v) = findUserById db (some v) := by
  unfold findUserById saveUser
  exact find?_replaceFirst_other _ _ new
    (fun x hx => by
      have h1 : x._id = new._id := by simpa using hx
      simpa [h1] using fun h : new._id = v => hv h.symm)
    (by simpa using fun h : new._id = v => hv h.symm) db.users

/-- The route `DELETE /feed/post/:postId` on a request by the creator of a
stored post, the creator being a stored user. -/
theorem deletePost_accepted {L : Lib} {db : Db} {req : Req} {post : Post} {user : User}
    (hAuth : Authenticated L req post.creator)
    (hFind : findPostById db req.postId = some post)
    (hUser : findUserById db (some post.creator) = some user) :
    Route.deletePost L db req =
      ⟨saveUser (removePost db req.postId)
          { user with posts := user.posts.filter (fun id => id ≠ req.postId) },
        [.findPost req.postId, .clearImage post.imageUrl, .removePost req.postId,
          .findUser (some post.creator), .saveUser user._id],
        .ok ⟨200, .message "Deleted post"⟩⟩ := by
  have hf : findPostById db ({ req with userId := some post.creator } : Req).postId
      = some post := hFind
  simp [Route.deletePost, protect_of_authenticated hAuth, SocialBlog.deletePost, hf,
    findUserById_removePost, hUser]

/-- C11: for every stored post (identifiers of stored posts being pairwise
distinct) and every `deletePost` request authenticated as its creator, a stored
user, the answer is 200; afterwards the post is not in the post store, its
id is not in the creator's posts (the other ids are kept in order), the stored
image was handed to `clearImage`, and every other post and every other user
is as before. -/
theorem deletePost_removes (L : Lib) (db : Db) (req : Req) (post : Post) (user : User)
    (hAuth : Authenticated L req post.creator)
    (hFind : findPostById db req.postId = some post)
    (hUser : findUserById db (some post.creator) = some user)
    (hIds : (db.posts.map Post._id).Nodup) :
    (Route.deletePost L db req).status = 200 ∧
    findPostById (Route.deletePost L db req).db req.postId = none ∧
    post ∉ (Route.deletePost L db req).db.posts ∧
    (Route.deletePost L db req).db.posts = db.posts.filter (fun p => p._id ≠ req.postId) ∧
    findUserById (Route.deletePost L db req).db (some post.creator)
      = some { user with posts := user.posts.filter (fun id => id ≠ req.postId) } ∧
    req.postId ∉ user.posts.filter (fun id => id ≠ req.postId) ∧
    clearedImages (Route.deletePost L db req).effects = [post.imageUrl] ∧
    (∀ id, id ≠ req.postId →
      findPostById (Route.deletePost L db req).db id = findPostById db id) ∧
    (∀ v, v ≠ post.creator →
      findUserById (Route.deletePost L db req).db (some v) = findUserById db (some v)) := by
  have huid : user._id = post.creator := by
    have := List.find?_some hUser
    simpa using this
  have hpid : post._id = req.postId := by
    have := List.find?_some hFind
    simpa using this
  have hposts : (Route.deletePost L db req).db.posts
      = db.posts.filter (fun p => p._id ≠ req.postId) := by
    rw [deletePost_accepted hAuth hFind hUser]
    exact eraseP_eq_filter req.postId db.posts hIds
  have hnone : findPostById (Route.deletePost L db req).db req.postId = none := by
    unfold findPostById
    rw [hposts, List.find?_eq_none]
    intro x hx
    simpa using (List.mem_filter.mp hx).2
  refine ⟨?_, hnone, ?_, hposts, ?_, ?_, ?_, ?_, ?_⟩
  · rw [deletePost_accepted hAuth hFind hUser]; rfl
  · intro hmem
    have := List.find?_eq_none.mp hnone post hmem
    simp [hpid] at this
  · rw [deletePost_accepted hAuth hFind hUser]
    have hu1 : findUserById (removePost db req.postId) (some post.creator) = some user := by
      rw [findUserById_removePost]; exact hUser
    exact findUserById_saveUser hu1 rfl
  · simp
  · rw [deletePost_accepted hAuth hFind hUser]; simp [clearedImages]
  · intro id hid
    rw [deletePost_accepted hAuth hFind hUser]
    unfold findPostById saveUser removePost
    exact find?_eraseP_other _ _
      (fun x hx => by
        have h1 : x._id = req.postId := by simpa using hx
        simpa [h1] using fun h : req.postId = id => hid h.symm) db.posts
  · intro v hv
    rw [deletePost_accepted hAuth hFind hUser]
    rw [findUserById_saveUser_other _ _ v (by simpa [huid] using hv), findUserById_removePost]

/-- Witness of `deletePost_removes`: user 0 deletes the post it created. -/
theorem deletePost_removes_witness :
    (Route.deletePost demoLib sampleDb deleteByCreator).status = 200 ∧
    findPostById (Route.deletePost demoLib sampleDb deleteByCreator).db 2 = none ∧
    findUserById (Route.deletePost demoLib sampleDb deleteByCreator).db (some 0)
      = some { ann with posts := ann.posts.filter (fun id => id ≠ 2) } :=
  have h := deletePost_removes demoLib sampleDb deleteByCreator helloPost ann
    ⟨"Bearer token-of-0", "a@x.com", rfl, by decide, rfl⟩ (by decide) (by decide) (by decide)
  ⟨h.1, h.2.1, h.2.2.2.2.1⟩

/-- C12 (counterexample): a create request whose title starts with spaces is
answered 201 and the stored post carries the trimmed title, not the title of
the request. -/
theorem postPost_title_trimmed :
    FeedValid createPadded ∧
    createPadded.body.title = some "  Hello World" ∧
    (Route.postPost demoLib sampleDb createPadded).status = 201 ∧
    (findPostById (Route.postPost demoLib sampleDb createPadded).db 3).map Post.title
      = some "Hello World" ∧
    (findPostById (Route.postPost demoLib sampleDb createPadded).db 3).map Post.title
      ≠ createPadded.body.title := by
  decide

/-- C12 (amended): for every create request authenticated as a stored user,
with valid title and content and an accepted file (the fresh identifier not
being used by a stored post), `postPost` answers 201; the post store gains
exactly one post, at its end, whose title and content are those of the request
with surrounding white space trimmed, whose image reference is the storage
path of the file with its first backslash, if any, replaced by a forward
slash, and whose creator is the caller; its id is appended at the end of the
caller's posts, every other user being as before; the response carries that
post with the creator summary (id and name of the caller); a following
`getPost` of that id is answered 200 with that same post. -/
theorem postPost_creates (L : Lib) (db : Db) (req : Req) (uid : ObjectId) (user : User)
    (file : File)
    (hAuth : Authenticated L req uid) (hUser : findUserById db (some uid) = some user)
    (hValid : FeedValid req) (hFile : req.file = some file)
    (hFresh : ∀ p ∈ db.posts, p._id ≠ db.nextId) :
    (Route.postPost L db req).status = 201 ∧
    (Route.postPost L db req).outcome
      = .ok ⟨201, .created ⟨db.nextId, jsTrim (fieldText req.body.title),
          replaceBackslash file.path, jsTrim (fieldText req.body.content), uid⟩ uid user.name⟩ ∧
    (Route.postPost L db req).db.posts
      = db.posts ++ [⟨db.nextId, jsTrim (fieldText req.body.title),
          replaceBackslash file.path, jsTrim (fieldText req.body.content), uid⟩] ∧
    findUserById (Route.postPost L db req).db (some uid)
      = some { user with posts := user.posts ++ [db.nextId] } ∧
    (∀ v, v ≠ uid →
      findUserById (Route.postPost L db req).db (some v) = findUserById db (some v)) ∧
    (Route.getPost L (Route.postPost L db req).db { req with postId := db.nextId }).outcome
      = .ok ⟨200, .post ⟨db.nextId, jsTrim (fieldText req.body.title),
          replaceBackslash file.path, jsTrim (fieldText req.body.content), uid⟩⟩ := by
  have huid : user._id = uid := by
    have := List.find?_some hUser
    simpa using this
  have hrun := @postPost_authenticated L db req uid file hAuth hValid hFile
  rw [hUser] at hrun
  simp only [] at hrun
  rw [hrun]
  refine ⟨rfl, ?_, rfl, ?_, ?_, ?_⟩
  · simp [createdPost, huid]
  · have hu1 : findUserById (insertPost db (createdPost db req file uid)) (some uid)
        = some user := by
      rw [findUserById_insertPost]; exact hUser
    exact findUserById_saveUser hu1 rfl
  · intro v hv
    rw [findUserById_saveUser_other _ _ v (by simpa [huid] using hv), findUserById_insertPost]
  · have hAuth1 : Authenticated L { req with postId := db.nextId } uid := hAuth
    have hnone : db.posts.find? (fun p => decide (p._id = db.nextId)) = none := by
      rw [List.find?_eq_none]
      intro x hx
      simpa using hFresh x hx
    have hfind : findPostById
        (saveUser (insertPost db (createdPost db req file uid))
          { user with posts := user.posts ++ [db.nextId] }) db.nextId
        = some (createdPost db req file uid) := by
      simp [findPostById, saveUser, insertPost, List.find?_append, hnone, createdPost]
    simp only [Route.getPost, protect_of_authenticated hAuth1, SocialBlog.getPost, hfind]
    rfl

/-- Witness of `postPost_creates`: user 0 creates a post in the sample
database. -/
theorem postPost_creates_witness :
    (Route.postPost demoLib sampleDb createPadded).status = 201 ∧
    (Route.postPost demoLib sampleDb createPadded).db.posts
      = sampleDb.posts ++ [⟨sampleDb.nextId, jsTrim (fieldText createPadded.body.title),
          replaceBackslash (File.path ⟨"image/png", "3f2504e0", .posix⟩),
          jsTrim (fieldText createPadded.body.content), 0⟩] :=
  have h := postPost_creates demoLib sampleDb createPadded 0 ann ⟨"image/png", "3f2504e0", .posix⟩
    ⟨"Bearer token-of-0", "a@x.com", rfl, by decide, rfl⟩ (by decide) (by decide) rfl
    (by decide)
  ⟨h.1, h.2.2.1⟩

/-- The posts of a user as read off the identifier and creator pairs. -/
theorem postIdsOf_keys (db : Db) (uid : ObjectId) :
    postIdsOf db uid = (db.keys.filter (fun k => k.2 = uid)).map Prod.fst := by
  simp [postIdsOf, Db.keys, List.filter_map, Function.comp_def, Post.key]

/-- The empty database is consistent. -/
theorem Consistent.empty : Consistent Db.empty := by
  constructor <;> simp [Db.empty, Db.keys]

/-- Consistency depends on the posts only through their identifiers and
creators. -/
theorem Consistent.of_keys {db db1 : Db} (h : Consistent db) (hu : db1.users = db.users)
    (hk : db1.keys = db.keys) (hn : db1.nextId = db.nextId) : Consistent db1 := by
  constructor
  · rw [hu]; exact h.userIds
  · rw [hu, hn]; exact h.usersFresh
  · rw [hk]; exact h.postsSorted
  · rw [hk, hn]; exact h.postsFresh
  · rw [hk, hu]; exact h.creators
  · rw [hk, hu]; exact h.linked

/-- In a consistent database the post identifiers are pairwise distinct. -/
theorem Consistent.postIds_nodup {db : Db} (h : Consistent db) :
    (db.posts.map Post._id).Nodup := by
  have h1 : (db.keys.map Prod.fst).Nodup :=
    h.postsSorted.imp (fun hab => Nat.ne_of_lt hab)
  simpa [Db.keys, Post.key, Function.comp_def] using h1

/-- A stored identifier finds a stored user. -/
theorem findUserById_of_mem {db : Db} {uid : ObjectId} (h : uid ∈ db.users.map User._id) :
    ∃ user, findUserById db (some uid) = some user := by
  obtain ⟨u, hu, hid⟩ := List.mem_map.mp h
  cases hf : findUserById db (some uid) with
  | some user => exact ⟨user, rfl⟩
  | none =>
    have := List.find?_eq_none.mp hf u hu
    simp [hid] at this

/-- What a lookup by identifier returns is stored and has that identifier. -/
theorem findUserById_some {db : Db} {uid : ObjectId} {user : User}
    (h : findUserById db (some uid) = some user) : user ∈ db.users ∧ user._id = uid := by
  refine ⟨List.mem_of_find?_eq_some h, ?_⟩
  have := List.find?_some h
  simpa using this

/-- What a post lookup returns is stored and has that identifier. -/
theorem findPostById_some {db : Db} {id : ObjectId} {post : Post}
    (h : findPostById db id = some post) : post ∈ db.posts ∧ post._id = id := by
  refine ⟨List.mem_of_find?_eq_some h, ?_⟩
  have := List.find?_some h
  simpa using this

/-- Members of a user list after one user was saved: the saved user, or a
stored user with another identifier. -/
theorem mem_replaceFirst_user (uid : ObjectId) (new : User) :
    ∀ l : List User, (l.map User._id).Nodup →
      ∀ x ∈ replaceFirst (fun u => decide (u._id = uid)) new l,
        x = new ∨ (x ∈ l ∧ x._id ≠ uid) := by
  intro l
  induction l with
  | nil => intro _ x hx; simp [replaceFirst] at hx
  | cons a l ih =>
    intro h x hx
    rw [List.map_cons, List.nodup_cons] at h
    by_cases ha : a._id = uid
    · simp only [replaceFirst, ha, decide_True, if_true, List.mem_cons] at hx
      rcases hx with hx | hx
      · exact Or.inl hx
      · right
        refine ⟨List.mem_cons_of_mem _ hx, ?_⟩
        intro hxu
        exact h.1 (by rw [ha, ← hxu]; exact List.mem_map_of_mem User._id hx)
    · simp only [replaceFirst, ha, decide_False, Bool.false_eq_true, if_false,
        List.mem_cons] at hx
      rcases hx with hx | hx
      · right; rw [hx]; exact ⟨List.mem_cons_self _ _, ha⟩
      · rcases ih h.2 x hx with h1 | ⟨h1, h2⟩
        · exact Or.inl h1
        · exact Or.inr ⟨List.mem_cons_of_mem _ h1, h2⟩

/-- Saving a loaded user keeps the list of user identifiers. -/
theorem saveUser_ids {db : Db} {uid : ObjectId} {user new : User}
    (hFind : findUserById db (some uid) = some user) (hid : new._id = user._id) :
    (saveUser db new).users.map User._id = db.users.map User._id := by
  have huid := (findUserById_some hFind).2
  have hFind1 : db.users.find? (fun u => decide (u._id = new._id)) = some user := by
    rw [hid, huid]; exact hFind
  exact map_replaceFirst User._id _ new db.users user hFind1 hid

/-- Storing a new user with a fresh identifier and no posts keeps the database
consistent. -/
theorem Consistent.afterSignup {db : Db} (h : Consistent db) (user : User)
    (hid : user._id = db.nextId) (hposts : user.posts = []) :
    Consistent (insertUser db user) := by
  have hfresh : db.nextId ∉ db.users.map User._id := fun hm =>
    Nat.lt_irrefl _ (h.usersFresh _ hm)
  constructor
  · simp only [SocialBlog.insertUser, List.map_append, List.map_cons, List.map_nil, hid]
    refine List.Nodup.append h.userIds (List.nodup_singleton _) ?_
    intro x hx hx1
    rw [List.mem_singleton] at hx1
    exact hfresh (hx1 ▸ hx)
  · intro i hi
    simp only [SocialBlog.insertUser, List.map_append, List.map_cons, List.map_nil, hid,
      List.mem_append, List.mem_singleton] at hi
    rcases hi with hi | hi
    · exact Nat.lt_succ_of_lt (h.usersFresh i hi)
    · rw [hi]; exact Nat.lt_succ_self _
  · exact h.postsSorted
  · intro k hk
    exact Nat.lt_succ_of_lt (h.postsFresh k hk)
  · intro k hk
    simp only [SocialBlog.insertUser, List.map_append, List.mem_append]
    exact Or.inl (h.creators k hk)
  · intro u hu
    simp only [SocialBlog.insertUser, List.mem_append, List.mem_singleton] at hu
    rcases hu with hu | hu
    · exact h.linked u hu
    · rw [hu, hposts, hid]
      have : (insertUser db user).keys.filter (fun k => decide (k.2 = db.nextId)) = [] := by
        rw [List.filter_eq_nil_iff]
        intro k hk
        have := h.creators k hk
        simpa using fun hk2 : k.2 = db.nextId => hfresh (hk2 ▸ this)
      rw [this]; rfl

/-- Storing a new post for a stored user and appending its id to the posts of
that user keeps the database consistent. -/
theorem Consistent.afterCreate {db : Db} (h : Consistent db) {uid : ObjectId} {user : User}
    (hUser : findUserById db (some uid) = some user) (post : Post)
    (hid : post._id = db.nextId) (hcr : post.creator = uid) :
    Consistent (saveUser (insertPost db post) { user with posts := user.posts ++ [db.nextId] }) := by
  obtain ⟨hmem, huid⟩ := findUserById_some hUser
  have hUser1 : findUserById (insertPost db post) (some uid) = some user := by
    rw [findUserById_insertPost]; exact hUser
  have hids : (saveUser (insertPost db post)
      { user with posts := user.posts ++ [db.nextId] }).users.map User._id
      = db.users.map User._id := saveUser_ids hUser1 rfl
  have hkeys : (saveUser (insertPost db post)
      { user with posts := user.posts ++ [db.nextId] }).keys = db.keys ++ [(db.nextId, uid)] := by
    simp [saveUser, insertPost, Db.keys, Post.key, hid, hcr]
  constructor
  · rw [hids]; exact h.userIds
  · intro i hi
    rw [hids] at hi
    exact Nat.lt_succ_of_lt (h.usersFresh i hi)
  · rw [hkeys, List.map_append, List.pairwise_append]
    refine ⟨h.postsSorted, by simp, ?_⟩
    intro a ha b hb
    obtain ⟨k, hk, rfl⟩ := List.mem_map.mp ha
    simp only [List.map_cons, List.map_nil, List.mem_singleton] at hb
    rw [hb]; exact h.postsFresh k hk
  · intro k hk
    rw [hkeys, List.mem_append, List.mem_singleton] at hk
    rcases hk with hk | hk
    · exact Nat.lt_succ_of_lt (h.postsFresh k hk)
    · rw [hk]; exact Nat.lt_succ_self _
  · intro k hk
    rw [hids]
    rw [hkeys, List.mem_append, List.mem_singleton] at hk
    rcases hk with hk | hk
    · exact h.creators k hk
    · rw [hk]
      exact List.mem_map.mpr ⟨user, hmem, huid⟩
  · intro u hu
    rw [hkeys]
    have hu1 := mem_replaceFirst_user user._id { user with posts := user.posts ++ [db.nextId] }
      db.users h.userIds u hu
    rcases hu1 with hu1 | ⟨hu1, hne⟩
    · rw [hu1]
      simp only [List.filter_append, List.map_append, h.linked user hmem, huid]
      simp
    · have hne1 : ¬ uid = u._id := fun hx => hne (by rw [huid, hx])
      simp only [List.filter_append, List.map_append, h.linked u hu1]
      simp [hne1]

/-- Erasing the post of an identifier, seen on the identifier and creator
pairs. -/
theorem removePost_keys {db : Db} (h : Consistent db) (id : ObjectId) :
    (removePost db id).keys = db.keys.filter (fun k => k.1 ≠ id) := by
  simp [removePost, Db.keys, eraseP_eq_filter id db.posts h.postIds_nodup, List.filter_map,
    Function.comp_def, Post.key]

/-- Filtering the first components after the second, or the other way round. -/
theorem filter_fst_filter_snd (id uid : ObjectId) (l : List (ObjectId × ObjectId)) :
    ((l.filter (fun k => k.2 = uid)).map Prod.fst).filter (fun i => i ≠ id)
      = ((l.filter (fun k => k.1 ≠ id)).filter (fun k => k.2 = uid)).map Prod.fst := by
  induction l with
  | nil => rfl
  | cons a l ih =>
    by_cases h1 : a.2 = uid <;> by_cases h2 : a.1 = id <;>
      simp [List.filter_cons, h1, h2] <;> simpa using ih

/-- Removing a stored post and pulling its id from the posts of its creator
keeps the database consistent. -/
theorem Consistent.afterDelete {db : Db} (h : Consistent db) {id : ObjectId} {post : Post}
    {user : User} (hFind : findPostById db id = some post)
    (hUser : findUserById db (some post.creator) = some user) :
    Consistent (saveUser (removePost db id)
      { user with posts := user.posts.filter (fun i => i ≠ id) }) := by
  obtain ⟨hmem, huid⟩ := findUserById_some hUser
  obtain ⟨hpmem, hpid⟩ := findPostById_some hFind
  have hUser1 : findUserById (removePost db id) (some post.creator) = some user := by
    rw [findUserById_removePost]; exact hUser
  have hids : (saveUser (removePost db id)
      { user with posts := user.posts.filter (fun i => i ≠ id) }).users.map User._id
      = db.users.map User._id := saveUser_ids hUser1 rfl
  have hkeys : (saveUser (removePost db id)
      { user with posts := user.posts.filter (fun i => i ≠ id) }).keys
      = db.keys.filter (fun k => k.1 ≠ id) := removePost_keys h id
  have hsub : ∀ k ∈ db.keys.filter (fun k => decide (k.1 ≠ id)), k ∈ db.keys := fun k hk =>
    (List.mem_filter.mp hk).1
  have hkey : ∀ k ∈ db.keys, k.1 = id → k.2 = post.creator := by
    intro k hk hk1
    have hnodup : (db.keys.map Prod.fst).Nodup := h.postsSorted.imp (fun hab => Nat.ne_of_lt hab)
    have hpk : post.key ∈ db.keys := List.mem_map_of_mem Post.key hpmem
    have := List.inj_on_of_nodup_map hnodup hk hpk (by simp [Post.key, hk1, hpid])
    rw [this]; rfl
  constructor
  · rw [hids]; exact h.userIds
  · intro i hi
    rw [hids] at hi
    exact h.usersFresh i hi
  · rw [hkeys]
    exact h.postsSorted.sublist (List.Sublist.map _ (List.filter_sublist _))
  · intro k hk
    rw [hkeys] at hk
    exact h.postsFresh k (hsub k hk)
  · intro k hk
    rw [hids]
    rw [hkeys] at hk
    exact h.creators k (hsub k hk)
  · intro u hu
    rw [hkeys]
    have hu1 := mem_replaceFirst_user user._id
      { user with posts := user.posts.filter (fun i => i ≠ id) } db.users h.userIds u hu
    rcases hu1 with hu1 | ⟨hu1, hne⟩
    · rw [hu1]
      simp only [h.linked user hmem]
      exact filter_fst_filter_snd id user._id db.keys
    · rw [h.linked u hu1, List.filter_filter]
      congr 1
      apply List.filter_congr
      intro k hk
      by_cases hk2 : k.2 = u._id
      · have hk1 : k.1 ≠ id := by
          intro hk1
          have := hkey k hk hk1
          exact hne (by rw [huid, ← this, hk2])
        simp [hk2, hk1]
      · simp [hk2]

/-- The database after the route `DELETE /feed/post/:postId`: unchanged, or
the post removed on request of its creator and, when the creator is a stored
user, its id pulled from the creator's posts. -/
theorem deletePost_db (L : Lib) (db : Db) (req : Req) :
    (Route.deletePost L db req).db = db ∨
    ∃ post, DeleteAccepted L db req post ∧
      ((findUserById db (some post.creator) = none ∧
          (Route.deletePost L db req).db = removePost db req.postId) ∨
        ∃ user, findUserById db (some post.creator) = some user ∧
          (Route.deletePost L db req).db =
            saveUser (removePost db req.postId)
              { user with posts := user.posts.filter (fun id => id ≠ req.postId) }) := by
  cases hA : isAuth L req with
  | error e => left; simp [Route.deletePost, protect, hA]
  | ok r =>
    obtain ⟨uid, hAuth, rfl⟩ := isAuth_ok_inv hA
    cases hFind : findPostById db req.postId with
    | none =>
      left
      have hf : findPostById db ({ req with userId := some uid } : Req).postId = none := hFind
      simp [Route.deletePost, protect, hA, SocialBlog.deletePost, hf]
    | some post =>
      have hf : findPostById db ({ req with userId := some uid } : Req).postId = some post :=
        hFind
      by_cases hc : post.creator = uid
      · subst hc
        right
        refine ⟨post, ⟨hAuth, hFind⟩, ?_⟩
        cases hu : findUserById db (some post.creator) with
        | none =>
          left
          refine ⟨rfl, ?_⟩
          simp [Route.deletePost, protect, hA, SocialBlog.deletePost, hf,
            findUserById_removePost, hu]
        | some user =>
          right
          refine ⟨user, rfl, ?_⟩
          rw [deletePost_accepted hAuth hFind hu]
      · left
        simp [Route.deletePost, protect, hA, SocialBlog.deletePost, hf, hc]

/-- One request keeps the database consistent. -/
theorem step_consistent (L : Lib) (db : Db) (r : FeedRequest) (h : Consistent db)
    (hc : CallerStored L db r) : Consistent (step L db r) := by
  cases r with
  | signup req =>
    rcases signup_db L db req with hdb | ⟨user, hdb, hid, hposts, -, -⟩
    · simp only [step, hdb]; exact h
    · simp only [step, hdb]; exact h.afterSignup user hid hposts
  | postPost req =>
    rcases postPost_db L db req with hdb | ⟨uid, file, hAuth, -, -, hdb⟩
    · simp only [step, hdb]; exact h
    · rcases hdb with ⟨hnone, -⟩ | ⟨user, hUser, hdb⟩
      · have := hc uid hAuth
        rw [hnone] at this
        exact absurd this (by simp)
      · simp only [step, hdb]
        exact h.afterCreate hUser _ rfl rfl
  | updatePost req =>
    obtain ⟨hk, hu, hn⟩ := routeUpdatePost_keys L db req
    exact h.of_keys hu hk hn
  | deletePost req =>
    rcases deletePost_db L db req with hdb | ⟨post, ⟨-, hFind⟩, hdb⟩
    · simp only [step, hdb]; exact h
    · have hmem : post.creator ∈ db.users.map User._id :=
        h.creators post.key (List.mem_map_of_mem Post.key (findPostById_some hFind).1)
      obtain ⟨user0, hUser0⟩ := findUserById_of_mem hmem
      rcases hdb with ⟨hnone, -⟩ | ⟨user, hUser, hdb⟩
      · rw [hnone] at hUser0
        exact absurd hUser0 (by simp)
      · simp only [step, hdb]
        exact h.afterDelete hFind hUser

/-- A sequence of requests keeps the database consistent. -/
theorem run_consistent (L : Lib) :
    ∀ (rs : List FeedRequest) (db : Db), Consistent db → CallersStored L db rs →
      Consistent (run L db rs) := by
  intro rs
  induction rs with
  | nil => intro db h _; exact h
  | cons r rs ih =>
    intro db h hc
    exact ih (step L db r) (step_consistent L db r h hc.1) hc.2

/-- C16 (counterexample): a create request whose token names an identifier
that is not stored is answered 500 after the post was saved; the user that
signs up next is given that identifier and has an empty posts collection
although a stored post has it as creator. And between the two writes of a
create request by a stored user the new post is stored but is not yet in the
posts collection of its creator. -/
theorem posts_link_broken :
    (Route.postPost demoLib Db.empty createByUnknown).status = 500 ∧
    (run demoLib Db.empty badSession).users.map (fun u => (u._id, u.posts)) = [(1, [])] ∧
    postIdsOf (run demoLib Db.empty badSession) 1 = [0] ∧
    ¬ (∀ u ∈ (run demoLib Db.empty badSession).users,
        u.posts = postIdsOf (run demoLib Db.empty badSession) u._id) ∧
    findUserById sampleDb (some 0) = some ann ∧
    ¬ (∀ u ∈ (afterPostSave sampleDb createPadded ⟨"image/png", "3f2504e0", .posix⟩ 0).users,
        u.posts = postIdsOf
          (afterPostSave sampleDb createPadded ⟨"image/png", "3f2504e0", .posix⟩ 0) u._id) := by
  decide

/-- The store `postPost` leaves for a stored caller is the store after its
first write with the caller saved. -/
theorem postPost_after_first_write {L : Lib} {db : Db} {req : Req} {uid : ObjectId}
    {file : File} {user : User}
    (hAuth : Authenticated L req uid) (hValid : FeedValid req) (hFile : req.file = some file)
    (hUser : findUserById db (some uid) = some user) :
    (Route.postPost L db req).db =
      saveUser (afterPostSave db req file uid)
        { user with posts := user.posts ++ [db.nextId] } := by
  rw [postPost_authenticated hAuth hValid hFile, hUser]
  rfl

/-- C16 (amended): in every state reached from the empty store after a
sequence of signup, postPost, updatePost and deletePost requests handled one
at a time, each request completing before the next starts, and every create
request that passes `is-auth` doing so as a stored user: the stored posts are
in order of creation (their ids increase along the storage order), and for
every stored user the posts collection is the list of the ids of the stored
posts whose creator is that user, in that order and each once. -/
theorem posts_linked_to_creators (L : Lib) (rs : List FeedRequest)
    (hCallers : CallersStored L Db.empty rs) :
    ((run L Db.empty rs).posts.map Post._id).Pairwise (fun a b => a < b) ∧
    ∀ u ∈ (run L Db.empty rs).users,
      u.posts = postIdsOf (run L Db.empty rs) u._id ∧
      u.posts.Nodup ∧
      (∀ id, id ∈ u.posts ↔ ∃ p ∈ (run L Db.empty rs).posts, p._id = id ∧ p.creator = u._id) := by
  have h := run_consistent L rs Db.empty Consistent.empty hCallers
  have hsorted : ((run L Db.empty rs).posts.map Post._id).Pairwise (fun a b => a < b) := by
    have := h.postsSorted
    simpa [Db.keys, Post.key, Function.comp_def] using this
  refine ⟨hsorted, ?_⟩
  intro u hu
  have hlinked : u.posts = postIdsOf (run L Db.empty rs) u._id := by
    rw [postIdsOf_keys]; exact h.linked u hu
  refine ⟨hlinked, ?_, ?_⟩
  · rw [hlinked]
    exact h.postIds_nodup.sublist (List.Sublist.map _ (List.filter_sublist _))
  · intro id
    rw [hlinked]
    simp only [postIdsOf, List.mem_map, List.mem_filter, decide_eq_true_eq]
    constructor
    · rintro ⟨p, ⟨hp, hc⟩, hid⟩
      exact ⟨p, hp, hid, hc⟩
    · rintro ⟨p, hp, hid, hc⟩
      exact ⟨p, ⟨hp, hc⟩, hid⟩

/-- Witness of `posts_linked_to_creators` on `sampleSession`. -/
theorem posts_linked_to_creators_witness :
    ((run demoLib Db.empty sampleSession).posts.map Post._id).Pairwise (fun a b => a < b) ∧
    ∀ u ∈ (run demoLib Db.empty sampleSession).users,
      u.posts = postIdsOf (run demoLib Db.empty sampleSession) u._id ∧
      u.posts.Nodup ∧
      (∀ id, id ∈ u.posts ↔
        ∃ p ∈ (run demoLib Db.empty sampleSession).posts, p._id = id ∧ p.creator = u._id) :=
  posts_linked_to_creators demoLib sampleSession
    ⟨trivial,
      fun uid hAuth => by
        have h0 : Authenticated demoLib createPadded 0 :=
          ⟨"Bearer token-of-0", "a@x.com", rfl, by decide, rfl⟩
        rw [Authenticated.unique hAuth h0]
        decide,
      trivial, trivial, trivial⟩

end SocialBlog
